import Mathlib

/-
Verification of the MIF binary-format core of this repository
(src/src-tauri/src/lib.rs): byte-cursor primitives, the versioned
header reader/writer with its extension-tag table, the PackBits
scanline codec, the image-data section with lazy line reads, the
image-system tag table, and the CMY compositing engine.

Modelling conventions, shared by every definition below:
  * a file is a `List Nat` of byte values together with a cursor
    position; reads fail (like `read_exact`) past the end, seeks
    always succeed (like `SeekFrom::Start`);
  * Rust machine integers are modelled as `Int`/`Nat` with explicit
    two's-complement decoding (`toSigned`) and explicit `as usize` /
    `as u64` casts (`usizeOfInt`, `u64OfInt`);
  * strings are modelled as their raw byte payload with trailing NUL
    bytes trimmed; the UTF-8 / Windows-1254 character decoding of the
    source only changes how those bytes print, never how many bytes
    are consumed, and no property below depends on the decoded text;
  * fallible Rust code returns `Except Err`; an out-of-bounds `Vec`
    index or slice (a Rust panic) is the distinguished error
    `Err.panicked`, distinct from every `Err.e msg` error return;
  * the `f32` arithmetic of the blend functions is modelled exactly
    over `ℚ`; the saturating truncation of Rust `as u8` on floats is
    `f32u8`.
-/

/-- Outcome of a fallible operation: an error value actually returned
by the Rust code (`Err.e msg`), or a Rust panic (`Err.panicked`). -/
inductive Err where
  | e (msg : String)
  | panicked
deriving DecidableEq

/-- The `n` bytes of `d` starting at position `p`. -/
def byteSlice (d : List Nat) (p n : Nat) : List Nat :=
  (d.drop p).take n

/-- `MifReader::read_bytes`: read exactly `n` bytes at position `p`,
failing like `read_exact` if fewer are available. -/
def readBytes (d : List Nat) (p n : Nat) : Except Err (List Nat × Nat) :=
  if p + n ≤ d.length then .ok (byteSlice d p n, p + n)
  else .error (.e "Failed to read bytes")

/-- Little-endian decoding of a byte list to a natural number. -/
def decodeLE (bs : List Nat) : Nat :=
  bs.foldr (fun b a => b % 256 + 256 * a) 0

/-- Two's-complement reading of an unsigned `w`-bit value. -/
def toSigned (w : Nat) (n : Nat) : Int :=
  if n % 2 ^ w < 2 ^ (w - 1) then ((n % 2 ^ w : Nat) : Int)
  else ((n % 2 ^ w : Nat) : Int) - 2 ^ w

/-- Rust `x as usize` on a signed value (64-bit wraparound). -/
def usizeOfInt (x : Int) : Nat :=
  (x % (2 ^ 64 : Int)).toNat

/-- Rust `x as u64` on a signed value (64-bit wraparound). -/
def u64OfInt (x : Int) : Nat :=
  (x % (2 ^ 64 : Int)).toNat

/-- `MifReader::read_int8`. -/
def readInt8 (d : List Nat) (p : Nat) : Except Err (Int × Nat) :=
  match readBytes d p 1 with
  | .error er => .error er
  | .ok (bs, q) => .ok (toSigned 8 (decodeLE bs), q)

/-- `MifReader::read_int16` (little-endian). -/
def readInt16 (d : List Nat) (p : Nat) : Except Err (Int × Nat) :=
  match readBytes d p 2 with
  | .error er => .error er
  | .ok (bs, q) => .ok (toSigned 16 (decodeLE bs), q)

/-- `MifReader::read_int32` (little-endian). -/
def readInt32 (d : List Nat) (p : Nat) : Except Err (Int × Nat) :=
  match readBytes d p 4 with
  | .error er => .error er
  | .ok (bs, q) => .ok (toSigned 32 (decodeLE bs), q)

/-- `MifReader::read_uint16` (little-endian). -/
def readUint16 (d : List Nat) (p : Nat) : Except Err (Nat × Nat) :=
  match readBytes d p 2 with
  | .error er => .error er
  | .ok (bs, q) => .ok (decodeLE bs, q)

/-- `MifReader::read_uint32` (little-endian). -/
def readUint32 (d : List Nat) (p : Nat) : Except Err (Nat × Nat) :=
  match readBytes d p 4 with
  | .error er => .error er
  | .ok (bs, q) => .ok (decodeLE bs, q)

/-- Removal of all trailing NUL bytes (`trim_end_matches` with NUL). -/
def trimZeros (l : List Nat) : List Nat :=
  (l.reverse.dropWhile (fun b => b = 0)).reverse

/-- `MifReader::read_tag`: read `size` bytes and trim trailing NULs. -/
def readTagF (d : List Nat) (p size : Nat) : Except Err (List Nat × Nat) :=
  match readBytes d p size with
  | .error er => .error er
  | .ok (bs, q) => .ok (trimZeros bs, q)

/-- `MifReader::read_string`: a signed 16-bit length prefix cast to
`usize`, then that many raw bytes with trailing NULs trimmed. -/
def readStringB (d : List Nat) (p : Nat) : Except Err (List Nat × Nat) :=
  match readInt16 d p with
  | .error er => .error er
  | .ok (len, q) =>
    match readBytes d q (usizeOfInt len) with
    | .error er => .error er
    | .ok (bs, r) => .ok (trimZeros bs, r)

/-- Little-endian encoding of `n` into exactly `w` bytes. -/
def natLE : Nat → Nat → List Nat
  | 0, _ => []
  | w + 1, n => n % 256 :: natLE w (n / 256)

/-- `MifWriter::write_int16`: two's-complement little-endian bytes. -/
def int16Bytes (x : Int) : List Nat :=
  natLE 2 ((x % (2 ^ 16 : Int)).toNat)

/-- `MifWriter::write_int32`: two's-complement little-endian bytes. -/
def int32Bytes (x : Int) : List Nat :=
  natLE 4 ((x % (2 ^ 32 : Int)).toNat)

/-- `MifWriter::write_string`: 16-bit length prefix then the bytes. -/
def writeStringBytes (s : List Nat) : List Nat :=
  int16Bytes (s.length : Int) ++ s

/-- `MifWriter::write_tag`: the tag bytes NUL-padded to `size`; a tag
longer than `size` makes the source's `buffer[..bytes.len()]` slice
panic. -/
def writeTagFixed (tag : List Nat) (size : Nat) : Except Err (List Nat) :=
  if tag.length ≤ size then .ok (tag ++ List.replicate (size - tag.length) 0)
  else .error .panicked

deriving instance DecidableEq for Except

/-- The PackBits decompressor `decompress`, recursing on the suffix of
the input that the source's index `i` points at; `fuel` bounds the
number of loop iterations (each consumes at least one byte). -/
def decompressAux : Nat → List Nat → Except Err (List Nat)
  | 0, _ => .error (.e "out of fuel")
  | _ + 1, [] => .ok []
  | fuel + 1, h :: t =>
    if 0 ≤ toSigned 8 h then
      if (toSigned 8 h).toNat + 1 ≤ t.length then
        match decompressAux fuel (t.drop ((toSigned 8 h).toNat + 1)) with
        | .error er => .error er
        | .ok r => .ok (t.take ((toSigned 8 h).toNat + 1) ++ r)
      else .error (.e "Invalid packbits data: literal count exceeds buffer")
    else if toSigned 8 h ≠ -128 then
      if t.length = 0 then .error (.e "Invalid packbits data: no byte to repeat")
      else
        match decompressAux fuel t.tail with
        | .error er => .error er
        | .ok r => .ok (List.replicate ((toSigned 8 h).natAbs + 1) (t.headD 0) ++ r)
    else decompressAux fuel t

/-- `decompress(data)`: every loop iteration consumes at least one
input byte, so `data.length + 1` units of fuel always suffice. -/
def decompress (data : List Nat) : Except Err (List Nat) :=
  decompressAux (data.length + 1) data

/-- A raw header extension tag (`HeaderTag { id, size, data }`). -/
structure HeaderTag where
  id : Int
  size : Int
  data : List Nat
deriving DecidableEq

/-- `MifHeader`, with strings modelled as byte lists. -/
structure MifHeader where
  file_version : List Nat
  version_id : Int
  variant_count : Int
  active_variant : Int
  flags : Int
  design_name : List Nat
  design_file_name : List Nat
  design_type : List Nat
  pc : Int
  parameters : List (List Nat)
  password : List Nat
  repeat_mode : Int
  repeat_dir : Int
  repeat_offset : Int
  tags : List HeaderTag
deriving DecidableEq

/-- `DESIGN_MAXPARAMETERCOUNT`. -/
def DESIGN_MAXPARAMETERCOUNT : Int := 20

/-- ASCII bytes of the version-tag constant `MIFF001`. -/
def MIFFIDV19 : List Nat := [77, 73, 70, 70, 48, 48, 49]

/-- ASCII bytes of the version-tag constant `MIFF002`. -/
def MIFFIDV20 : List Nat := [77, 73, 70, 70, 48, 48, 50]

/-- ASCII bytes of the version-tag constant `MIFF028`. -/
def MIFFIDV28 : List Nat := [77, 73, 70, 70, 48, 50, 56]

/-- ASCII bytes of the version-tag constant `MIFF030`. -/
def MIFFIDV30 : List Nat := [77, 73, 70, 70, 48, 51, 48]

/-- `MifHeader::get_version`: map the stored tag to 1..4, else -1. -/
def getVersion (fv : List Nat) : Int :=
  if fv = MIFFIDV19 then 1
  else if fv = MIFFIDV20 then 2
  else if fv = MIFFIDV28 then 3
  else if fv = MIFFIDV30 then 4
  else -1

/-- Loop body of `MifHeader::read_tags`: read a 32-bit size (0 ends the
table), then a 16-bit id and `size` raw payload bytes, appending to the
accumulated tag list. `fuel` bounds the iteration count; every
successful iteration consumes at least six bytes. -/
def readTagsAux (d : List Nat) :
    Nat → List HeaderTag → Nat → Except Err (List HeaderTag × Nat)
  | 0, _, _ => .error (.e "out of fuel")
  | fuel + 1, acc, p =>
    match readInt32 d p with
    | .error er => .error er
    | .ok (tagSize, p1) =>
      if tagSize = 0 then .ok (acc, p1)
      else
        match readInt16 d p1 with
        | .error er => .error er
        | .ok (tagId, p2) =>
          match readBytes d p2 (usizeOfInt tagSize) with
          | .error er => .error er
          | .ok (tagData, p3) =>
            readTagsAux d fuel (acc ++ [{ id := tagId, size := tagSize, data := tagData }]) p3

/-- `MifHeader::read_tags`; `d.length + 1` units of fuel always suffice
because each iteration advances the position by at least one byte and
the position never passes the end of the readable data. -/
def readTags (d : List Nat) (acc : List HeaderTag) (p : Nat) :
    Except Err (List HeaderTag × Nat) :=
  readTagsAux d (d.length + 1) acc p

/-- The `for _ in 0..pc` parameter-string loop of the header readers. -/
def readParams (d : List Nat) :
    Nat → List (List Nat) → Nat → Except Err (List (List Nat) × Nat)
  | 0, acc, p => .ok (acc, p)
  | n + 1, acc, p =>
    match readStringB d p with
    | .error er => .error er
    | .ok (s, p1) => readParams d n (acc ++ [s]) p1

/-- Tail of `MifHeader::read_v3_and_older`: the version-1 early return,
then `repeat_mode`, `repeat_dir`, `repeat_offset`, and for versions ≥ 3
the header extension-tag table. -/
def readV3Tail (d : List Nat) (h : MifHeader) (p : Nat) :
    Except Err (Bool × MifHeader × Nat) :=
  if h.version_id = 1 then .ok (true, h, p)
  else
    match readInt16 d p with
    | .error er => .error er
    | .ok (rm, p1) =>
      match readInt16 d p1 with
      | .error er => .error er
      | .ok (rd, p2) =>
        match readInt32 d p2 with
        | .error er => .error er
        | .ok (ro, p3) =>
          if 3 ≤ h.version_id then
            match readTags d h.tags p3 with
            | .error er => .error er
            | .ok (ts, p4) =>
              .ok (true, { h with
                           repeat_mode := rm, repeat_dir := rd,
                           repeat_offset := ro, tags := ts }, p4)
          else
            .ok (true, { h with
                         repeat_mode := rm, repeat_dir := rd,
                         repeat_offset := ro }, p3)

/-- Password block of `MifHeader::read_v3_and_older` (read unless the
version is 4 after recovery): a 16-bit length, rejected above 100, and
on a nonzero length that many bytes into a zero-padded 100-byte
buffer. -/
def readV3Password (d : List Nat) (h : MifHeader) (p : Nat) :
    Except Err (Bool × MifHeader × Nat) :=
  if h.version_id ≠ 4 then
    match readInt16 d p with
    | .error er => .error er
    | .ok (passLen, p1) =>
      if 100 < passLen then .ok (false, h, p1)
      else if passLen ≠ 0 then
        match readBytes d p1 (usizeOfInt passLen) with
        | .error er => .error er
        | .ok (buf, p2) =>
          readV3Tail d { h with password := buf ++ List.replicate (100 - buf.length) 0 } p2
      else readV3Tail d h p1
  else readV3Tail d h p

/-- Parameter block of `MifHeader::read_v3_and_older`: the loop runs
`0..self.pc` times — over the stored `pc` field, which the recovery
path of `readV3Pc` leaves at its original out-of-range value. -/
def readV3Params (d : List Nat) (h : MifHeader) (p : Nat) :
    Except Err (Bool × MifHeader × Nat) :=
  match readParams d h.pc.toNat [] p with
  | .error er => .error er
  | .ok (ps, p1) => readV3Password d { h with parameters := h.parameters ++ ps } p1

/-- Parameter-count block of `MifHeader::read_v3_and_older`: version 1
fixes `pc = 4`; otherwise the count is read as a signed 16-bit value
and, when outside [1,20], 254 raw bytes are skipped and the count is
re-read into a local that is only range-checked — `self.pc` keeps the
first value; on success of the re-check the header becomes version 4. -/
def readV3Pc (d : List Nat) (h : MifHeader) (p : Nat) :
    Except Err (Bool × MifHeader × Nat) :=
  if h.version_id = 1 then readV3Params d { h with pc := 4 } p
  else
    match readInt16 d p with
    | .error er => .error er
    | .ok (pcv, p1) =>
      if pcv ≤ 0 ∨ DESIGN_MAXPARAMETERCOUNT < pcv then
        match readBytes d p1 254 with
        | .error er => .error er
        | .ok (_, p2) =>
          match readInt16 d p2 with
          | .error er => .error er
          | .ok (pc2, p3) =>
            if pc2 ≤ 0 ∨ DESIGN_MAXPARAMETERCOUNT < pc2 then
              .ok (false, { h with pc := pcv }, p3)
            else
              readV3Params d { h with
                               pc := pcv, file_version := MIFFIDV30,
                               version_id := getVersion MIFFIDV30 } p3
      else readV3Params d { h with pc := pcv } p1

/-- `MifHeader::read_v3_and_older`: the three design strings, then the
parameter-count, parameter, password and tail blocks above. -/
def readV3AndOlder (d : List Nat) (h : MifHeader) (p : Nat) :
    Except Err (Bool × MifHeader × Nat) :=
  match readStringB d p with
  | .error er => .error er
  | .ok (dn, p1) =>
    match readStringB d p1 with
    | .error er => .error er
    | .ok (dfn, p2) =>
      match readStringB d p2 with
      | .error er => .error er
      | .ok (dt, p3) =>
        readV3Pc d { h with
                     design_name := dn, design_file_name := dfn,
                     design_type := dt } p3

/-- `MifHeader::read_v4`: three design strings, a 256-byte reserved
block, a parameter count rejected outside [0,20], the parameter
strings, and the extension-tag table. -/
def readV4 (d : List Nat) (h : MifHeader) (p : Nat) :
    Except Err (Bool × MifHeader × Nat) :=
  match readStringB d p with
  | .error er => .error er
  | .ok (dn, p1) =>
    match readStringB d p1 with
    | .error er => .error er
    | .ok (dfn, p2) =>
      match readStringB d p2 with
      | .error er => .error er
      | .ok (dt, p3) =>
        match readBytes d p3 256 with
        | .error er => .error er
        | .ok (_, p4) =>
          match readInt16 d p4 with
          | .error er => .error er
          | .ok (pcv, p5) =>
            if pcv < 0 ∨ DESIGN_MAXPARAMETERCOUNT < pcv then
              .ok (false, { h with
                            design_name := dn, design_file_name := dfn,
                            design_type := dt, pc := pcv }, p5)
            else
              match readParams d pcv.toNat [] p5 with
              | .error er => .error er
              | .ok (ps, p6) =>
                match readTags d h.tags p6 with
                | .error er => .error er
                | .ok (ts, p7) =>
                  .ok (true, { h with
                               design_name := dn, design_file_name := dfn,
                               design_type := dt, pc := pcv,
                               parameters := h.parameters ++ ps, tags := ts }, p7)

/-- The freshly constructed header of `MifHeader::read`, all other
fields defaulted, with `version_id` already mapped from the tag. -/
def MifHeader.init (fv : List Nat) : MifHeader :=
  { file_version := fv, version_id := getVersion fv, variant_count := 0,
    active_variant := 0, flags := 0, design_name := [], design_file_name := [],
    design_type := [], pc := 0, parameters := [], password := [],
    repeat_mode := 0, repeat_dir := 0, repeat_offset := 0, tags := [] }

/-- `MifHeader::read`: the 8-byte version tag, the version check, three
16-bit counters, and the version dispatch; a `false` success flag from
either branch is the corrupt-header error. -/
def MifHeader.read (d : List Nat) (p : Nat) : Except Err (MifHeader × Nat) :=
  match readTagF d p 8 with
  | .error er => .error er
  | .ok (fv, p1) =>
    if getVersion fv = -1 then .error (.e "Invalid MIF file version")
    else
      match readInt16 d p1 with
      | .error er => .error er
      | .ok (vc, p2) =>
        match readInt16 d p2 with
        | .error er => .error er
        | .ok (av, p3) =>
          match readInt16 d p3 with
          | .error er => .error er
          | .ok (fl, p4) =>
            if getVersion fv ≤ 0 ∨ 4 < getVersion fv then
              .error (.e "Unsupported MIF file version")
            else
              match (if getVersion fv ≤ 3 then
                       readV3AndOlder d { MifHeader.init fv with
                                          variant_count := vc,
                                          active_variant := av, flags := fl } p4
                     else
                       readV4 d { MifHeader.init fv with
                                  variant_count := vc,
                                  active_variant := av, flags := fl } p4) with
              | .error er => .error er
              | .ok (success, h, p5) =>
                if success then .ok (h, p5)
                else .error (.e "Failed to read MIF header")

/-- `MifHeader::write_tags`: each tag as size, id and payload bytes,
then the terminating 32-bit zero. -/
def writeTagsBytes (ts : List HeaderTag) : List Nat :=
  (ts.map (fun t => int32Bytes t.size ++ int16Bytes t.id ++ t.data)).flatten ++ int32Bytes 0

/-- Body of `MifHeader::write` after the fixed tag and the three 16-bit
counters: the two version-dispatch branches of the source. -/
def MifHeader.writeBody (h : MifHeader) : List Nat :=
  if h.version_id ≤ 3 then
    writeStringBytes h.design_name ++ writeStringBytes h.design_file_name ++
      writeStringBytes h.design_type ++
      (if h.version_id ≠ 1 then int16Bytes h.pc else []) ++
      (h.parameters.map writeStringBytes).flatten ++
      (if h.version_id ≠ 4 then int16Bytes (h.password.length : Int) ++ h.password else []) ++
      (if 1 < h.version_id then writeTagsBytes h.tags else [])
  else
    writeStringBytes h.design_name ++ writeStringBytes h.design_file_name ++
      writeStringBytes h.design_type ++
      List.replicate 256 0 ++
      int16Bytes h.pc ++
      (h.parameters.map writeStringBytes).flatten ++
      writeTagsBytes h.tags

/-- `MifHeader::write`: the fixed 8-byte tag (which panics for a stored
tag longer than 8 bytes), the three 16-bit counters, and the dispatched
body. -/
def MifHeader.write (h : MifHeader) : Except Err (List Nat) :=
  match writeTagFixed h.file_version 8 with
  | .error er => .error er
  | .ok tagB =>
    .ok (tagB ++ int16Bytes h.variant_count ++ int16Bytes h.active_variant ++
         int16Bytes h.flags ++ h.writeBody)

/-- Input exhibiting the recovery path of `readV3Pc`: a `MIFF002`
header whose first parameter count is 0 (outside [1,20]), 254 skipped
bytes, a re-read parameter count of 2, and then the bytes the rest of
the version-upgraded header parse consumes. -/
def c1Bytes : List Nat :=
  [77, 73, 70, 70, 48, 48, 50, 0] ++
  [1, 0] ++ [0, 0] ++ [0, 0] ++
  [0, 0] ++ [0, 0] ++ [0, 0] ++
  [0, 0] ++
  List.replicate 254 0 ++
  [2, 0] ++
  [5, 0] ++ [6, 0] ++ [7, 0, 0, 0] ++
  [0, 0, 0, 0]

/-- Shape of a header tag produced by a successful `read_tags` on a
file of realistic size: positive in-range size, in-range id, payload of
exactly `size` bytes. -/
def TagWF (t : HeaderTag) : Prop :=
  0 < t.size ∧ t.size < 2147483648 ∧
  -32768 ≤ t.id ∧ t.id < 32768 ∧
  t.data.length = t.size.toNat

/-- All tags of a list are well-formed. -/
def TagsWF (ts : List HeaderTag) : Prop :=
  ∀ t ∈ ts, TagWF t

/-- Invariant of every header returned by `MifHeader.read`: the stored
version tag fits the 8-byte field, `version_id` is one of 1..4, the
extension tags are well-formed, and a nonempty tag list forces version
3 or 4 (versions 1 and 2 never reach `read_tags`; the recovery path
re-tags the header as version 4 before doing so). -/
def HeaderWF (h : MifHeader) : Prop :=
  h.file_version.length ≤ 8 ∧
  (h.version_id = 1 ∨ h.version_id = 2 ∨ h.version_id = 3 ∨ h.version_id = 4) ∧
  TagsWF h.tags ∧
  (h.tags ≠ [] → h.version_id = 3 ∨ h.version_id = 4)

/-- A minimal version-3 (`MIFF028`) header byte sequence carrying one
extension tag `(id 7, size 1, payload [9])`. -/
def c3Bytes : List Nat :=
  [77, 73, 70, 70, 48, 50, 56, 0] ++
  [1, 0] ++ [0, 0] ++ [0, 0] ++
  [0, 0] ++ [0, 0] ++ [0, 0] ++
  [1, 0] ++
  [0, 0] ++
  [0, 0] ++
  [5, 0] ++ [6, 0] ++ [7, 0, 0, 0] ++
  [1, 0, 0, 0] ++ [7, 0] ++ [9] ++
  [0, 0, 0, 0]

/-- The header that `MifHeader.read` produces from `c3Bytes`. -/
def c3Header : MifHeader :=
  { file_version := MIFFIDV28
    version_id := 3
    variant_count := 1
    active_variant := 0
    flags := 0
    design_name := []
    design_file_name := []
    design_type := []
    pc := 1
    parameters := [[]]
    password := []
    repeat_mode := 5
    repeat_dir := 6
    repeat_offset := 7
    tags := [{ id := 7, size := 1, data := [9] }] }

/-- ASCII bytes of `IMAGE_DATA_TAG` (`DATA001`). -/
def IMAGE_DATA_TAG : List Nat := [68, 65, 84, 65, 48, 48, 49]

/-- Byte-wise ASCII upper-casing, modelling `str::to_uppercase` on the
ASCII range (the tag constant it is compared against is pure ASCII, so
non-ASCII bytes can never produce a match either way). -/
def asciiUpper (b : Nat) : Nat :=
  if 97 ≤ b ∧ b ≤ 122 then b - 32 else b

/-- The `for _ in 0..height` loop reading 16-bit scanline sizes. -/
def readInt16List (d : List Nat) :
    Nat → List Int → Nat → Except Err (List Int × Nat)
  | 0, acc, p => .ok (acc, p)
  | n + 1, acc, p =>
    match readInt16 d p with
    | .error er => .error er
    | .ok (x, p1) => readInt16List d n (acc ++ [x]) p1

/-- The `for _ in 0..height` loop reading 8-bit compression flags. -/
def readInt8List (d : List Nat) :
    Nat → List Int → Nat → Except Err (List Int × Nat)
  | 0, acc, p => .ok (acc, p)
  | n + 1, acc, p =>
    match readInt8 d p with
    | .error er => .error er
    | .ok (x, p1) => readInt8List d n (acc ++ [x]) p1

/-- `ImageDataSection`: the lazy per-channel scanline index. -/
structure ImageDataSection where
  tag : List Nat
  width : Int
  height : Int
  data_size : Int
  line_sizes : List Int
  line_comps : List Int
  data_pointer : Nat
deriving DecidableEq

/-- `ImageDataSection::read`: case-insensitive 8-byte tag check, three
32-bit fields, `height` line sizes and compression flags, the recorded
data origin, and the seek past `data_size` (cast to `u64`) bytes —
a seek to any absolute offset succeeds. -/
def ImageDataSection.read (d : List Nat) (p : Nat) :
    Except Err (ImageDataSection × Nat) :=
  match readTagF d p 8 with
  | .error er => .error er
  | .ok (tag, p1) =>
    if tag.map asciiUpper ≠ IMAGE_DATA_TAG then .error (.e "Invalid image data tag")
    else
      match readInt32 d p1 with
      | .error er => .error er
      | .ok (w, p2) =>
        match readInt32 d p2 with
        | .error er => .error er
        | .ok (ht, p3) =>
          match readInt32 d p3 with
          | .error er => .error er
          | .ok (ds, p4) =>
            match readInt16List d ht.toNat [] p4 with
            | .error er => .error er
            | .ok (sizes, p5) =>
              match readInt8List d ht.toNat [] p5 with
              | .error er => .error er
              | .ok (comps, p6) =>
                .ok ({ tag := tag, width := w, height := ht, data_size := ds,
                       line_sizes := sizes, line_comps := comps,
                       data_pointer := p6 }, p6 + u64OfInt ds)

/-- Rust `Vec` indexing: out of bounds is a panic, not an error. -/
def vecGet {α : Type} (l : List α) (i : Nat) : Except Err α :=
  match l.get? i with
  | some a => .ok a
  | none => .error .panicked

/-- Rust slicing `v[..k]`: an end index past the length is a panic. -/
def vecSliceTo (l : List Int) (k : Nat) : Except Err (List Int) :=
  if k ≤ l.length then .ok (l.take k) else .error .panicked

/-- `ImageDataSection::read_line`: seek to the data origin plus the sum
of the preceding line sizes (each cast to `u64`, summed with 64-bit
wraparound), read `line_sizes[line]` bytes, and PackBits-decompress
when `line_comps[line]` is 1. The three bracket operations are `Vec`
indexing/slicing and panic when `line` is out of range — there is no
bounds check against `height`. -/
def ImageDataSection.read_line (s : ImageDataSection) (d : List Nat) (line : Int) :
    Except Err (List Nat) :=
  match (if line = 0 then Except.ok s.data_pointer
         else
           match vecSliceTo s.line_sizes (usizeOfInt line) with
           | .error er => .error er
           | .ok pref =>
             .ok (s.data_pointer + (pref.map u64OfInt).sum % 2 ^ 64)) with
  | .error er => .error er
  | .ok position =>
    match vecGet s.line_sizes (usizeOfInt line) with
    | .error er => .error er
    | .ok sz =>
      match readBytes d position (usizeOfInt sz) with
      | .error er => .error er
      | .ok (buf, _) =>
        match vecGet s.line_comps (usizeOfInt line) with
        | .error er => .error er
        | .ok comp => if comp = 1 then decompress buf else .ok buf

/-- A one-scanline 1x1 image-data section: tag `DATA001`, width,
height and data size 1, one raw (uncompressed) line of one byte. -/
def c2Bytes : List Nat :=
  [68, 65, 84, 65, 48, 48, 49, 0] ++
  [1, 0, 0, 0] ++ [1, 0, 0, 0] ++ [1, 0, 0, 0] ++
  [1, 0] ++
  [0] ++
  [7]

/-- The section that `ImageDataSection.read` produces from `c2Bytes`. -/
def c2Section : ImageDataSection :=
  { tag := IMAGE_DATA_TAG, width := 1, height := 1, data_size := 1,
    line_sizes := [1], line_comps := [0], data_pointer := 23 }

/-- `RepeatTag { mode, dir, offset }`. -/
structure RepeatTag where
  mode : Int
  dir : Int
  offset : Int
deriving DecidableEq

/-- `HalftoneTag { output_resolution, enable }`. -/
structure HalftoneTag where
  output_resolution : Int
  enable : Int
deriving DecidableEq

/-- `ChannelOffsets { channel_count, channel_offsets }`. -/
structure ChannelOffsets where
  channel_count : Int
  channel_offsets : List (Int × Int)
deriving DecidableEq

/-- `ImgSysTags`: the four optional image-system extension tags. The
source field `repeat` is a Lean keyword and is named `repeatT` here. -/
structure ImgSysTags where
  rendering_method : Option Int
  channel_offsets : Option ChannelOffsets
  halftone : Option HalftoneTag
  repeatT : Option RepeatTag
deriving DecidableEq

/-- The all-unset `ImgSysTags` value the reader starts from (and
resets to on an unknown tag id). -/
def emptyImgSysTags : ImgSysTags :=
  { rendering_method := none, channel_offsets := none,
    halftone := none, repeatT := none }

/-- `parse_repeat_tag_data`. -/
def parseRepeatTagData (d : List Nat) (p : Nat) : Except Err (RepeatTag × Nat) :=
  match readInt16 d p with
  | .error er => .error er
  | .ok (m, p1) =>
    match readInt16 d p1 with
    | .error er => .error er
    | .ok (dir, p2) =>
      match readInt32 d p2 with
      | .error er => .error er
      | .ok (off, p3) => .ok ({ mode := m, dir := dir, offset := off }, p3)

/-- `parse_halftone_tag_data`. -/
def parseHalftoneTagData (d : List Nat) (p : Nat) : Except Err (HalftoneTag × Nat) :=
  match readInt32 d p with
  | .error er => .error er
  | .ok (res, p1) =>
    match readInt16 d p1 with
    | .error er => .error er
    | .ok (en, p2) => .ok ({ output_resolution := res, enable := en }, p2)

/-- The `for _ in 0..channel_count` loop of the channel-offsets tag. -/
def readPairList (d : List Nat) :
    Nat → List (Int × Int) → Nat → Except Err (List (Int × Int) × Nat)
  | 0, acc, p => .ok (acc, p)
  | n + 1, acc, p =>
    match readInt16 d p with
    | .error er => .error er
    | .ok (x, p1) =>
      match readInt16 d p1 with
      | .error er => .error er
      | .ok (y, p2) => readPairList d n (acc ++ [(x, y)]) p2

/-- `parse_channel_offsets_tag_data`. -/
def parseChannelOffsetsTagData (d : List Nat) (p : Nat) :
    Except Err (ChannelOffsets × Nat) :=
  match readInt16 d p with
  | .error er => .error er
  | .ok (cnt, p1) =>
    match readPairList d cnt.toNat [] p1 with
    | .error er => .error er
    | .ok (offs, p2) =>
      .ok ({ channel_count := cnt, channel_offsets := offs }, p2)

/-- Loop of `read_img_sys_tags`: a 16-bit id — 0 is a hard error,
ids 1-4 parse their payload and store it, any other id returns the
all-unset table immediately with success — then the next 32-bit size,
0 ending the loop. `fuel` bounds the iteration count. -/
def imgSysLoop (d : List Nat) : Nat → ImgSysTags → Nat → Except Err (ImgSysTags × Nat)
  | 0, _, _ => .error (.e "out of fuel")
  | fuel + 1, tags, p =>
    match readInt16 d p with
    | .error er => .error er
    | .ok (tagId, p1) =>
      if tagId = 0 then .error (.e "Invalid tag id")
      else if tagId = 1 then
        match parseRepeatTagData d p1 with
        | .error er => .error er
        | .ok (r, p2) =>
          match readInt32 d p2 with
          | .error er => .error er
          | .ok (sz, p3) =>
            if sz = 0 then .ok ({ tags with repeatT := some r }, p3)
            else imgSysLoop d fuel { tags with repeatT := some r } p3
      else if tagId = 2 then
        match parseHalftoneTagData d p1 with
        | .error er => .error er
        | .ok (ht, p2) =>
          match readInt32 d p2 with
          | .error er => .error er
          | .ok (sz, p3) =>
            if sz = 0 then .ok ({ tags with halftone := some ht }, p3)
            else imgSysLoop d fuel { tags with halftone := some ht } p3
      else if tagId = 3 then
        match parseChannelOffsetsTagData d p1 with
        | .error er => .error er
        | .ok (co, p2) =>
          match readInt32 d p2 with
          | .error er => .error er
          | .ok (sz, p3) =>
            if sz = 0 then .ok ({ tags with channel_offsets := some co }, p3)
            else imgSysLoop d fuel { tags with channel_offsets := some co } p3
      else if tagId = 4 then
        match readInt32 d p1 with
        | .error er => .error er
        | .ok (rm, p2) =>
          match readInt32 d p2 with
          | .error er => .error er
          | .ok (sz, p3) =>
            if sz = 0 then .ok ({ tags with rendering_method := some rm }, p3)
            else imgSysLoop d fuel { tags with rendering_method := some rm } p3
      else .ok (emptyImgSysTags, p1)

/-- `read_img_sys_tags`: a 32-bit size, 0 meaning an empty table,
otherwise the id-dispatch loop; each iteration consumes at least one
byte, so `d.length + 1` units of fuel always suffice. -/
def readImgSysTags (d : List Nat) (p : Nat) : Except Err (ImgSysTags × Nat) :=
  match readInt32 d p with
  | .error er => .error er
  | .ok (sz, p1) =>
    if sz = 0 then .ok (emptyImgSysTags, p1)
    else imgSysLoop d (d.length + 1) emptyImgSysTags p1

/-- An 8-bit RGB pixel (`Rgb([r, g, b])` / `[u8; 3]`). -/
structure Rgb where
  r : Nat
  g : Nat
  b : Nat
deriving DecidableEq

/-- The all-white pixel. -/
def whitePix : Rgb := { r := 255, g := 255, b := 255 }

/-- Rust `as u8` on an `f32` (modelled over `ℚ`): saturate below 0 and
above 255, truncate toward zero in between. -/
def f32u8 (q : ℚ) : Nat :=
  if q < 0 then 0 else if 255 < q then 255 else (⌊q⌋).toNat

/-- `MifColor`, with strings as byte lists. -/
structure MifColor where
  tag : List Nat
  red : Nat
  green : Nat
  blue : Nat
  color_type : Int
  l : Nat
  a : Nat
  b : Nat
  name : List Nat
  description : List Nat
  extra_datasize : Int
deriving DecidableEq

/-- `MifColor::to_rgb` (the spec's `display_rgb()`): `color_type` 0 is
the approximate legacy Lab mapping (the `f32` literal `2.55` modelled
as the rational 51/20), 1 takes the high byte of each 16-bit channel,
anything else is black. -/
def MifColor.to_rgb (c : MifColor) : Rgb :=
  if c.color_type = 0 then
    { r := f32u8 (((c.l >>> 8 : Nat) : ℚ) / 255 * 100 * (51 / 20)),
      g := f32u8 (((((c.a >>> 8 : Nat) : ℚ) - 128) / 127 * 100 + 128) * 1),
      b := f32u8 (((((c.b >>> 8 : Nat) : ℚ) - 128) / 127 * 100 + 128) * 1) }
  else if c.color_type = 1 then
    { r := c.red >>> 8, g := c.green >>> 8, b := c.blue >>> 8 }
  else
    { r := 0, g := 0, b := 0 }

/-- `MifChannel` (only the fields the compositing engine reads). -/
structure MifChannel where
  width : Nat
  height : Nat
  data : List Nat
  name : List Nat
  visibility : Bool
  opacity : ℚ
  color : MifColor
deriving DecidableEq

/-- `MifChannelSpec`. -/
structure MifChannelSpec where
  name : List Nat
  visibility : Bool
  opacity : ℚ
  color : MifColor
deriving DecidableEq

/-- `MifVariant`. -/
structure MifVariant where
  name : List Nat
  fabric_color : MifColor
  channel_specs : List MifChannelSpec
deriving DecidableEq

/-- `MifLayer`. -/
structure MifLayer where
  channel_count : Nat
  channels : List MifChannel
deriving DecidableEq

/-- An `RgbImage`: dimensions plus the row-major pixel buffer. -/
structure Canvas where
  width : Nat
  height : Nat
  pixels : List Rgb
deriving DecidableEq

/-- The per-pixel body of `render_native`, in exact `ℚ` arithmetic:
CMY conversion, `blend = 255 - value`, `opacity = channel_opacity *
blend / 128`, a single `dissolve = blend * pixel[0] / 255` (the red
*RGB* byte of the canvas pixel) applied to all three CMY components,
the opacity pass, the color blend-in, and truncation back to RGB. -/
def nativeBlendPixel (pix : Rgb) (srcVal : Nat) (color : Rgb) (opac : ℚ) : Rgb :=
  let npC : ℚ := 255 - (pix.r : ℚ)
  let npM : ℚ := 255 - (pix.g : ℚ)
  let npY : ℚ := 255 - (pix.b : ℚ)
  let colorC : ℚ := 255 - (color.r : ℚ)
  let colorM : ℚ := 255 - (color.g : ℚ)
  let colorY : ℚ := 255 - (color.b : ℚ)
  let blend : ℚ := 255 - (srcVal : ℚ)
  let opacity : ℚ := opac * blend / 128
  let dissolve : ℚ := blend * (pix.r : ℚ) / 255
  let npC2 : ℚ := npC * (255 - dissolve) / 255
  let npM2 : ℚ := npM * (255 - dissolve) / 255
  let npY2 : ℚ := npY * (255 - dissolve) / 255
  let npC3 : ℚ := npC2 * (255 - opacity) / 255
  let npM3 : ℚ := npM2 * (255 - opacity) / 255
  let npY3 : ℚ := npY2 * (255 - opacity) / 255
  let npC4 : ℚ := npC3 + (255 - npC3) * blend * colorC / (255 * 255)
  let npM4 : ℚ := npM3 + (255 - npM3) * blend * colorM / (255 * 255)
  let npY4 : ℚ := npY3 + (255 - npY3) * blend * colorY / (255 * 255)
  { r := f32u8 (255 - npC4), g := f32u8 (255 - npM4), b := f32u8 (255 - npY4) }

/-- The per-pixel body of `render_only_add`: per-component dissolve
from the matching canvas RGB byte, `opacity = channel_opacity * blend /
255`, additive opacity pass, color subtraction, clamp at 0. -/
def addBlendPixel (pix : Rgb) (srcVal : Nat) (color : Rgb) (opac : ℚ) : Rgb :=
  let npC : ℚ := 255 - (pix.r : ℚ)
  let npM : ℚ := 255 - (pix.g : ℚ)
  let npY : ℚ := 255 - (pix.b : ℚ)
  let colorC : ℚ := 255 - (color.r : ℚ)
  let colorM : ℚ := 255 - (color.g : ℚ)
  let colorY : ℚ := 255 - (color.b : ℚ)
  let blend : ℚ := 255 - (srcVal : ℚ)
  let opacity : ℚ := opac * blend / 255
  let npC2 : ℚ := npC * (255 - blend * (pix.r : ℚ) / 255) / 255
  let npM2 : ℚ := npM * (255 - blend * (pix.g : ℚ) / 255) / 255
  let npY2 : ℚ := npY * (255 - blend * (pix.b : ℚ) / 255) / 255
  let npC3 : ℚ := npC2 + (255 - npC2) * opacity / 128
  let npM3 : ℚ := npM2 + (255 - npM2) * opacity / 128
  let npY3 : ℚ := npY2 + (255 - npY2) * opacity / 128
  let npC4 : ℚ := max (npC3 - colorC * blend / 255) 0
  let npM4 : ℚ := max (npM3 - colorM * blend / 255) 0
  let npY4 : ℚ := max (npY3 - colorY * blend / 255) 0
  { r := f32u8 (255 - npC4), g := f32u8 (255 - npM4), b := f32u8 (255 - npY4) }

/-- One iteration of the pixel loop of `render_native` at linear index
`i = y * width + x`: skip (`continue`) when `i` reaches past the
channel data, otherwise blend the pixel in place. Each iteration reads
and writes only its own pixel. -/
def renderStepNative (source : List Nat) (color : Rgb) (opac : ℚ)
    (px : List Rgb) (i : Nat) : List Rgb :=
  match source.get? i with
  | none => px
  | some v =>
    match px.get? i with
    | none => px
    | some pcur => px.set i (nativeBlendPixel pcur v color opac)

/-- `render_native`: the `for y / for x` double loop visits the linear
indices `y * width + x`, i.e. exactly `0 .. width*height - 1` in
order, each iteration touching only its own pixel. -/
def renderNative (dest : Canvas) (source : List Nat) (color : Rgb) (opac : ℚ) :
    Canvas :=
  { dest with
    pixels := (List.range (dest.width * dest.height)).foldl
      (renderStepNative source color opac) dest.pixels }

/-- One iteration of the pixel loop of `render_only_add`. -/
def renderStepAdd (source : List Nat) (color : Rgb) (opac : ℚ)
    (px : List Rgb) (i : Nat) : List Rgb :=
  match source.get? i with
  | none => px
  | some v =>
    match px.get? i with
    | none => px
    | some pcur => px.set i (addBlendPixel pcur v color opac)

/-- `render_only_add`, structured exactly like `renderNative`. -/
def renderOnlyAdd (dest : Canvas) (source : List Nat) (color : Rgb) (opac : ℚ) :
    Canvas :=
  { dest with
    pixels := (List.range (dest.width * dest.height)).foldl
      (renderStepAdd source color opac) dest.pixels }

/-- `create_interleaved_rgb` (the spec's `compose`): canvas dimensions
from the first channel divided by `scale` (`u32` division; dividing by
zero panics), canvas filled with the fabric color, then each channel
in declared order blended with `render_native` unless it is invisible
and named `C`, `M` or `Y` (bytes 67, 77, 89). -/
def createInterleavedRgb (layer : MifLayer) (variant : MifVariant) (scale : Nat) :
    Except Err Canvas :=
  match layer.channels with
  | [] => .error (.e "No channels found in layer")
  | c0 :: _ =>
    if scale = 0 then .error .panicked
    else
      .ok (layer.channels.foldl
        (fun img ch =>
          if ch.visibility = false ∧
              (ch.name = [67] ∨ ch.name = [77] ∨ ch.name = [89]) then img
          else renderNative img ch.data ch.color.to_rgb ch.opacity)
        { width := c0.width / scale, height := c0.height / scale,
          pixels := List.replicate ((c0.width / scale) * (c0.height / scale))
            variant.fabric_color.to_rgb })

/-- Modelled from the spec for C4 only: the native blend as the claim
words it, with `dissolve = blend * canvas_red_cmy_component / 255`
where the red-derived CMY component is `255 - r` (the spec defines
`c = 255 - r`); everything else as in `nativeBlendPixel`. -/
def nativeBlendPixelSpecC4 (pix : Rgb) (srcVal : Nat) (color : Rgb) (opac : ℚ) :
    Rgb :=
  let npC : ℚ := 255 - (pix.r : ℚ)
  let npM : ℚ := 255 - (pix.g : ℚ)
  let npY : ℚ := 255 - (pix.b : ℚ)
  let colorC : ℚ := 255 - (color.r : ℚ)
  let colorM : ℚ := 255 - (color.g : ℚ)
  let colorY : ℚ := 255 - (color.b : ℚ)
  let blend : ℚ := 255 - (srcVal : ℚ)
  let opacity : ℚ := opac * blend / 128
  let dissolve : ℚ := blend * (255 - (pix.r : ℚ)) / 255
  let npC2 : ℚ := npC * (255 - dissolve) / 255
  let npM2 : ℚ := npM * (255 - dissolve) / 255
  let npY2 : ℚ := npY * (255 - dissolve) / 255
  let npC3 : ℚ := npC2 * (255 - opacity) / 255
  let npM3 : ℚ := npM2 * (255 - opacity) / 255
  let npY3 : ℚ := npY2 * (255 - opacity) / 255
  let npC4 : ℚ := npC3 + (255 - npC3) * blend * colorC / (255 * 255)
  let npM4 : ℚ := npM3 + (255 - npM3) * blend * colorM / (255 * 255)
  let npY4 : ℚ := npY3 + (255 - npY3) * blend * colorY / (255 * 255)
  { r := f32u8 (255 - npC4), g := f32u8 (255 - npM4), b := f32u8 (255 - npY4) }

/-- The per-component update native-blend applies: dissolve pass,
opacity pass, color blend-in. -/
def nativeComponentFormula (v colorComp blend opacity dissolve : ℚ) : ℚ :=
  let v1 := v * (255 - dissolve) / 255
  let v2 := v1 * (255 - opacity) / 255
  v2 + (255 - v2) * blend * colorComp / (255 * 255)

/-- A fully-white fabric color of `color_type` 1 (all 16-bit channel
values `0xFF00`). -/
def whiteFabricColor : MifColor :=
  { tag := [], red := 65280, green := 65280, blue := 65280, color_type := 1,
    l := 0, a := 0, b := 0, name := [], description := [], extra_datasize := 0 }

/-- A variant whose fabric color is fully white. -/
def whiteFabricVariant : MifVariant :=
  { name := [], fabric_color := whiteFabricColor, channel_specs := [] }

/-- A black channel color of `color_type` 1. -/
def blackChannelColor : MifColor :=
  { tag := [], red := 0, green := 0, blue := 0, color_type := 1,
    l := 0, a := 0, b := 0, name := [], description := [], extra_datasize := 0 }

/-- A single visible 2x2 channel with intensity value 0 (the claimed
"fully transparent" value) everywhere and a black channel color. -/
def c7Layer : MifLayer :=
  { channel_count := 1,
    channels := [{ width := 2, height := 2, data := [0, 0, 0, 0],
                   name := [84], visibility := true, opacity := 1,
                   color := blackChannelColor }] }

theorem decompressAux_congr : ∀ (f : Nat) (l : List Nat) (g : Nat),
    l.length < f → l.length < g → decompressAux f l = decompressAux g l := by
  intro f
  induction f with
  | zero => intro l g hf _; exact absurd hf (by omega)
  | succ f ih =>
    intro l g hf hg
    cases l with
    | nil =>
      cases g with
      | zero => exact absurd hg (by omega)
      | succ g => rfl
    | cons b t =>
      cases g with
      | zero => exact absurd hg (by omega)
      | succ g =>
        have ht : t.length < f := by simp only [List.length_cons] at hf; omega
        have htg : t.length < g := by simp only [List.length_cons] at hg; omega
        simp only [decompressAux]
        split
        · split
          · rw [ih (t.drop ((toSigned 8 b).toNat + 1)) g
              (by have := List.length_drop ((toSigned 8 b).toNat + 1) t; omega)
              (by have := List.length_drop ((toSigned 8 b).toNat + 1) t; omega)]
          · rfl
        · split
          · split
            · rfl
            · rw [ih t.tail g
                (by have := List.length_tail t; omega)
                (by have := List.length_tail t; omega)]
          · exact ih t g ht htg

theorem toSigned8_low (c : Nat) (hc : c < 128) : toSigned 8 c = (c : Int) := by
  unfold toSigned
  rw [Nat.mod_eq_of_lt (show c < 2 ^ 8 by omega),
    if_pos (show c < 2 ^ (8 - 1) from hc.trans_le (by norm_num))]

theorem toSigned8_high (c : Nat) (hc1 : 128 ≤ c) (hc2 : c < 256) :
    toSigned 8 c = (c : Int) - 256 := by
  unfold toSigned
  rw [Nat.mod_eq_of_lt (show c < 2 ^ 8 by omega),
    if_neg (show ¬ c < 2 ^ (8 - 1) from by norm_num; omega)]
  norm_num

theorem decompress_cons_literal (c : Nat) (xs rest : List Nat)
    (hc : c < 128) (hlen : xs.length = c + 1) :
    decompress (c :: (xs ++ rest)) =
      (decompress rest).map (fun r => xs ++ r) := by
  unfold decompress
  simp only [decompressAux, toSigned8_low c hc]
  rw [if_pos (show (0 : Int) ≤ (c : Int) by positivity)]
  have htn : ((c : Int)).toNat + 1 = xs.length := by omega
  rw [htn]
  rw [if_pos (show xs.length ≤ (xs ++ rest).length by simp)]
  rw [List.drop_left, List.take_left]
  rw [decompressAux_congr ((c :: (xs ++ rest)).length) rest (rest.length + 1)
    (by simp only [List.length_cons, List.length_append]; omega) (by omega)]
  cases hx : decompressAux (rest.length + 1) rest <;> simp [hx, Except.map]

theorem decompress_cons_repeat (c : Nat) (v : Nat) (rest : List Nat)
    (hc1 : 128 < c) (hc2 : c < 256) :
    decompress (c :: v :: rest) =
      (decompress rest).map (fun r => List.replicate (257 - c) v ++ r) := by
  unfold decompress
  simp only [decompressAux, toSigned8_high c (by omega) hc2]
  rw [if_neg (show ¬ (0 : Int) ≤ (c : Int) - 256 by omega),
    if_pos (show ((c : Int) - 256) ≠ -128 by omega),
    if_neg (show ¬ (v :: rest).length = 0 by simp)]
  have hab : ((c : Int) - 256).natAbs + 1 = 257 - c := by omega
  rw [hab]
  simp only [List.tail_cons, List.headD_cons]
  rw [decompressAux_congr ((c :: v :: rest).length) rest (rest.length + 1)
    (by simp only [List.length_cons]; omega) (by omega)]
  cases hx : decompressAux (rest.length + 1) rest <;> simp [hx, Except.map]

theorem decompress_cons_noop (rest : List Nat) :
    decompress (128 :: rest) = decompress rest := by
  unfold decompress
  simp only [decompressAux, show toSigned 8 128 = -128 from by decide]
  rw [if_neg (by omega), if_neg (by simp)]
  exact decompressAux_congr ((128 :: rest).length) rest (rest.length + 1)
    (by simp only [List.length_cons]; omega) (by omega)

theorem decompress_literal_overrun (c : Nat) (xs : List Nat)
    (hc : c < 128) (hlen : xs.length < c + 1) :
    decompress (c :: xs) =
      .error (.e "Invalid packbits data: literal count exceeds buffer") := by
  unfold decompress
  simp only [decompressAux, toSigned8_low c hc]
  rw [if_pos (show (0 : Int) ≤ (c : Int) by positivity),
    if_neg (show ¬ ((c : Int)).toNat + 1 ≤ xs.length by omega)]

theorem decompress_repeat_overrun (c : Nat) (hc1 : 128 < c) (hc2 : c < 256) :
    decompress [c] = .error (.e "Invalid packbits data: no byte to repeat") := by
  unfold decompress
  simp only [decompressAux, toSigned8_high c (by omega) hc2]
  rw [if_neg (show ¬ (0 : Int) ≤ (c : Int) - 256 by omega),
    if_pos (show ((c : Int) - 256) ≠ -128 by omega),
    if_pos (show ([] : List Nat).length = 0 by simp)]

/-- C6: PackBits `decompress` treats each control byte as signed 8-bit:
a byte `c < 128` copies the next `c+1` bytes verbatim, the byte `128`
(signed `-128`) consumes nothing further and emits nothing, and a byte
`128 < c ≤ 255` (signed `c-256`, so repeat count `(-(c-256))+1 = 257-c`)
reads one further byte and emits it that many times; a literal run or a
repeat byte reaching past the end of the input is a corrupt-data error.
In particular `[0x02,0x41,0x42,0x43]` decompresses to `[0x41,0x42,0x43]`,
`[0xFE,0x41]` to `[0x41,0x41,0x41]`, and `[0x80]` to `[]`. -/
theorem c6_packbits_decompress :
    decompress [0x02, 0x41, 0x42, 0x43] = .ok [0x41, 0x42, 0x43] ∧
    decompress [0xFE, 0x41] = .ok [0x41, 0x41, 0x41] ∧
    decompress [0x80] = .ok [] ∧
    (∀ c xs rest, c < 128 → xs.length = c + 1 →
      decompress (c :: (xs ++ rest)) = (decompress rest).map (fun r => xs ++ r)) ∧
    (∀ c v rest, 128 < c → c < 256 →
      decompress (c :: v :: rest) =
        (decompress rest).map (fun r => List.replicate (257 - c) v ++ r)) ∧
    (∀ rest, decompress (128 :: rest) = decompress rest) ∧
    (∀ c xs, c < 128 → xs.length < c + 1 →
      decompress (c :: xs) =
        .error (.e "Invalid packbits data: literal count exceeds buffer")) ∧
    (∀ c, 128 < c → c < 256 →
      decompress [c] = .error (.e "Invalid packbits data: no byte to repeat")) :=
  ⟨by decide, by decide, by decide,
   decompress_cons_literal, decompress_cons_repeat, decompress_cons_noop,
   decompress_literal_overrun, decompress_repeat_overrun⟩

/-- C6 witness: the general clauses of `c6_packbits_decompress`
instantiated at concrete inputs, with every hypothesis discharged. -/
theorem c6_packbits_decompress_witness :
    decompress (1 :: ([9, 8] ++ [128])) = (decompress [128]).map (fun r => [9, 8] ++ r) ∧
    decompress [255, 7] = (decompress []).map (fun r => List.replicate 2 7 ++ r) ∧
    decompress [3, 1] =
      .error (.e "Invalid packbits data: literal count exceeds buffer") ∧
    decompress [200] = .error (.e "Invalid packbits data: no byte to repeat") :=
  ⟨c6_packbits_decompress.2.2.2.1 1 [9, 8] [128] (by decide) (by decide),
   c6_packbits_decompress.2.2.2.2.1 255 7 [] (by decide) (by decide),
   c6_packbits_decompress.2.2.2.2.2.2.1 3 [1] (by decide) (by decide),
   c6_packbits_decompress.2.2.2.2.2.2.2 200 (by decide) (by decide)⟩

set_option maxRecDepth 100000 in
/-- C1: on a version-2 header whose first parameter count (0) lies
outside [1,20], `MifHeader::read` skips 254 bytes, re-reads the count
(here 2, inside [1,20]) and upgrades the header to version 4 — but the
re-read count is only range-checked and then discarded: the parameter
loop still runs over the stale `self.pc`, so zero parameter strings are
read instead of the re-read two. -/
theorem c1_recovery_uses_stale_parameter_count :
    MifHeader.read c1Bytes 0 =
      .ok ({ file_version := MIFFIDV30
             version_id := 4
             variant_count := 1
             active_variant := 0
             flags := 0
             design_name := []
             design_file_name := []
             design_type := []
             pc := 0
             parameters := []
             password := []
             repeat_mode := 5
             repeat_dir := 6
             repeat_offset := 7
             tags := [] }, 290) ∧
    readInt16 c1Bytes 276 = .ok (2, 278) := by
  constructor
  · decide
  · decide

theorem toSigned16_eval (n : Nat) :
    toSigned 16 n =
      if n % 65536 < 32768 then ((n % 65536 : Nat) : Int)
      else ((n % 65536 : Nat) : Int) - 65536 := by
  unfold toSigned
  norm_num

theorem toSigned32_eval (n : Nat) :
    toSigned 32 n =
      if n % 4294967296 < 2147483648 then ((n % 4294967296 : Nat) : Int)
      else ((n % 4294967296 : Nat) : Int) - 4294967296 := by
  unfold toSigned
  norm_num

theorem toSigned16_range (n : Nat) :
    -32768 ≤ toSigned 16 n ∧ toSigned 16 n < 32768 := by
  rw [toSigned16_eval]
  have h1 : n % 65536 < 65536 := Nat.mod_lt _ (by norm_num)
  split <;> omega

theorem toSigned32_range (n : Nat) :
    -2147483648 ≤ toSigned 32 n ∧ toSigned 32 n < 2147483648 := by
  rw [toSigned32_eval]
  have h1 : n % 4294967296 < 4294967296 := Nat.mod_lt _ (by norm_num)
  split <;> omega

theorem toSigned16_int (x : Int) (h1 : -32768 ≤ x) (h2 : x < 32768) :
    toSigned 16 ((x % (65536 : Int)).toNat) = x := by
  rw [toSigned16_eval]
  have h3 : 0 ≤ x % (65536 : Int) := Int.emod_nonneg x (by norm_num)
  have h4 : x % (65536 : Int) < 65536 := Int.emod_lt_of_pos x (by norm_num)
  split <;> omega

theorem toSigned32_int (x : Int) (h1 : -2147483648 ≤ x) (h2 : x < 2147483648) :
    toSigned 32 ((x % (4294967296 : Int)).toNat) = x := by
  rw [toSigned32_eval]
  have h3 : 0 ≤ x % (4294967296 : Int) := Int.emod_nonneg x (by norm_num)
  have h4 : x % (4294967296 : Int) < 4294967296 := Int.emod_lt_of_pos x (by norm_num)
  split <;> omega

theorem readBytes_ok (d : List Nat) (p n : Nat) (bs : List Nat) (q : Nat)
    (h : readBytes d p n = .ok (bs, q)) :
    bs = byteSlice d p n ∧ bs.length = n ∧ q = p + n ∧ p + n ≤ d.length := by
  unfold readBytes at h
  split at h
  · simp only [Except.ok.injEq, Prod.mk.injEq] at h
    obtain ⟨h1, h2⟩ := h
    refine ⟨h1.symm, ?_, h2.symm, by assumption⟩
    subst h1
    simp only [byteSlice, List.length_take, List.length_drop]
    omega
  · exact absurd h (by simp)

theorem readInt16_ok (d : List Nat) (p : Nat) (x : Int) (q : Nat)
    (h : readInt16 d p = .ok (x, q)) :
    -32768 ≤ x ∧ x < 32768 ∧ q = p + 2 ∧ p + 2 ≤ d.length := by
  unfold readInt16 at h
  split at h
  · exact absurd h (by simp)
  · rename_i bs q1 heq
    obtain ⟨_, _, h3, h4⟩ := readBytes_ok d p 2 bs q1 heq
    simp only [Except.ok.injEq, Prod.mk.injEq] at h
    obtain ⟨h5, h6⟩ := h
    have := toSigned16_range (decodeLE bs)
    omega

theorem readInt32_ok (d : List Nat) (p : Nat) (x : Int) (q : Nat)
    (h : readInt32 d p = .ok (x, q)) :
    -2147483648 ≤ x ∧ x < 2147483648 ∧ q = p + 4 ∧ p + 4 ≤ d.length := by
  unfold readInt32 at h
  split at h
  · exact absurd h (by simp)
  · rename_i bs q1 heq
    obtain ⟨_, _, h3, h4⟩ := readBytes_ok d p 4 bs q1 heq
    simp only [Except.ok.injEq, Prod.mk.injEq] at h
    obtain ⟨h5, h6⟩ := h
    have := toSigned32_range (decodeLE bs)
    omega

theorem usizeOfInt_nonneg (x : Int) (h0 : 0 ≤ x) (h1 : x < 2 ^ 63) :
    usizeOfInt x = x.toNat := by
  unfold usizeOfInt
  have : (2 : Int) ^ 64 = 18446744073709551616 := by norm_num
  rw [this]
  have : (2 : Int) ^ 63 = 9223372036854775808 := by norm_num
  omega

theorem usizeOfInt_neg (x : Int) (h0 : x < 0) (h1 : -2147483648 ≤ x) :
    2 ^ 63 ≤ usizeOfInt x := by
  unfold usizeOfInt
  have h2 : (2 : Int) ^ 64 = 18446744073709551616 := by norm_num
  rw [h2]
  have : (2 : Nat) ^ 63 = 9223372036854775808 := by norm_num
  omega

theorem readTagsAux_wf (d : List Nat) (hd : d.length < 2 ^ 63) :
    ∀ (fuel : Nat) (acc : List HeaderTag) (p : Nat) (ts : List HeaderTag) (q : Nat),
      TagsWF acc → readTagsAux d fuel acc p = .ok (ts, q) → TagsWF ts := by
  intro fuel
  induction fuel with
  | zero =>
    intro acc p ts q _ hres
    exact absurd hres (by simp [readTagsAux])
  | succ fuel ih =>
    intro acc p ts q hacc hres
    simp only [readTagsAux] at hres
    split at hres
    · exact absurd hres (by simp)
    · rename_i tagSize p1 heq32
      split at hres
      · simp only [Except.ok.injEq, Prod.mk.injEq] at hres
        exact hres.1 ▸ hacc
      · rename_i hsz
        split at hres
        · exact absurd hres (by simp)
        · rename_i tagId p2 heq16
          split at hres
          · exact absurd hres (by simp)
          · rename_i tagData p3 heqB
            obtain ⟨hr1, hr2, hr3, hr4⟩ := readInt32_ok d p tagSize p1 heq32
            obtain ⟨hi1, hi2, hi3, hi4⟩ := readInt16_ok d p1 tagId p2 heq16
            obtain ⟨hb1, hb2, hb3, hb4⟩ :=
              readBytes_ok d p2 (usizeOfInt tagSize) tagData p3 heqB
            have hpos : 0 < tagSize := by
              rcases lt_trichotomy tagSize 0 with hneg | hzero | hposs
              · have := usizeOfInt_neg tagSize hneg hr1
                omega
              · exact absurd hzero hsz
              · exact hposs
            have hcast : usizeOfInt tagSize = tagSize.toNat :=
              usizeOfInt_nonneg tagSize (le_of_lt hpos)
                (by rw [show (2 : Int) ^ 63 = 9223372036854775808 from by norm_num]; omega)
            refine ih _ p3 ts q ?_ hres
            intro t ht
            rcases List.mem_append.mp ht with hmem | hmem
            · exact hacc t hmem
            · simp only [List.mem_singleton] at hmem
              subst hmem
              exact ⟨hpos, hr2, hi1, hi2, by rw [hb2, hcast]⟩

theorem natLE_length (w n : Nat) : (natLE w n).length = w := by
  induction w generalizing n with
  | zero => rfl
  | succ w ih => simp [natLE, ih]

theorem decodeLE_cons (b : Nat) (bs : List Nat) :
    decodeLE (b :: bs) = b % 256 + 256 * decodeLE bs := rfl

theorem decodeLE_natLE (w n : Nat) (h : n < 256 ^ w) :
    decodeLE (natLE w n) = n := by
  induction w generalizing n with
  | zero =>
    have : n = 0 := by simpa using h
    simp [this, natLE, decodeLE]
  | succ w ih =>
    have hle : n / 256 < 256 ^ w := by
      rw [pow_succ'] at h
      exact Nat.div_lt_of_lt_mul h
    simp only [natLE, decodeLE_cons, ih (n / 256) hle]
    omega

theorem int16Bytes_length (x : Int) : (int16Bytes x).length = 2 :=
  natLE_length 2 _

theorem int32Bytes_length (x : Int) : (int32Bytes x).length = 4 :=
  natLE_length 4 _

theorem readBytes_consume (d pre l rest : List Nat) (hd : d = pre ++ l ++ rest) :
    readBytes d pre.length l.length = .ok (l, (pre ++ l).length) := by
  subst hd
  unfold readBytes byteSlice
  rw [if_pos (by simp only [List.length_append]; omega)]
  have h1 : (pre ++ l ++ rest).drop pre.length = l ++ rest := by
    rw [List.append_assoc, List.drop_left]
  rw [h1, List.take_left, List.length_append]

theorem readInt16_consume (d pre rest : List Nat) (x : Int)
    (hd : d = pre ++ int16Bytes x ++ rest)
    (h1 : -32768 ≤ x) (h2 : x < 32768) :
    readInt16 d pre.length = .ok (x, (pre ++ int16Bytes x).length) := by
  have hb := readBytes_consume d pre (int16Bytes x) rest hd
  rw [int16Bytes_length] at hb
  have hdec : decodeLE (int16Bytes x) = ((x % (65536 : Int)).toNat) := by
    unfold int16Bytes
    rw [show ((2 : Int) ^ 16) = 65536 from by norm_num]
    apply decodeLE_natLE
    have h3 : 0 ≤ x % (65536 : Int) := Int.emod_nonneg x (by norm_num)
    have h4 : x % (65536 : Int) < 65536 := Int.emod_lt_of_pos x (by norm_num)
    norm_num
    omega
  unfold readInt16
  rw [hb]
  show Except.ok (toSigned 16 (decodeLE (int16Bytes x)), (pre ++ int16Bytes x).length) =
    Except.ok (x, (pre ++ int16Bytes x).length)
  rw [hdec, toSigned16_int x h1 h2]

theorem readInt32_consume (d pre rest : List Nat) (x : Int)
    (hd : d = pre ++ int32Bytes x ++ rest)
    (h1 : -2147483648 ≤ x) (h2 : x < 2147483648) :
    readInt32 d pre.length = .ok (x, (pre ++ int32Bytes x).length) := by
  have hb := readBytes_consume d pre (int32Bytes x) rest hd
  rw [int32Bytes_length] at hb
  have hdec : decodeLE (int32Bytes x) = ((x % (4294967296 : Int)).toNat) := by
    unfold int32Bytes
    rw [show ((2 : Int) ^ 32) = 4294967296 from by norm_num]
    apply decodeLE_natLE
    have h3 : 0 ≤ x % (4294967296 : Int) := Int.emod_nonneg x (by norm_num)
    have h4 : x % (4294967296 : Int) < 4294967296 := Int.emod_lt_of_pos x (by norm_num)
    norm_num
    omega
  unfold readInt32
  rw [hb]
  show Except.ok (toSigned 32 (decodeLE (int32Bytes x)), (pre ++ int32Bytes x).length) =
    Except.ok (x, (pre ++ int32Bytes x).length)
  rw [hdec, toSigned32_int x h1 h2]

theorem writeTagsBytes_cons (t : HeaderTag) (ts : List HeaderTag) :
    writeTagsBytes (t :: ts) =
      int32Bytes t.size ++ (int16Bytes t.id ++ (t.data ++ writeTagsBytes ts)) := by
  simp [writeTagsBytes, List.append_assoc]

theorem writeTagsBytes_length (t : HeaderTag) (ts : List HeaderTag) :
    (writeTagsBytes (t :: ts)).length =
      6 + t.data.length + (writeTagsBytes ts).length := by
  rw [writeTagsBytes_cons]
  simp only [List.length_append, int32Bytes_length, int16Bytes_length]
  omega

theorem writeTagsBytes_length_ge (ts : List HeaderTag) :
    ts.length ≤ (writeTagsBytes ts).length := by
  induction ts with
  | nil => simp [writeTagsBytes, int32Bytes_length]
  | cons t ts ih =>
    rw [writeTagsBytes_length]
    simp only [List.length_cons]
    omega

theorem readTagsAux_roundtrip :
    ∀ (ts : List HeaderTag) (fuel : Nat) (pre rest : List Nat) (acc : List HeaderTag),
      TagsWF ts → ts.length < fuel →
      readTagsAux (pre ++ writeTagsBytes ts ++ rest) fuel acc pre.length =
        .ok (acc ++ ts, pre.length + (writeTagsBytes ts).length) := by
  intro ts
  induction ts with
  | nil =>
    intro fuel pre rest acc _ hf
    match fuel, hf with
    | fuel + 1, _ =>
      have hw : writeTagsBytes ([] : List HeaderTag) = int32Bytes 0 := by
        simp [writeTagsBytes]
      rw [hw]
      have h32 := readInt32_consume (pre ++ int32Bytes 0 ++ rest) pre rest 0 rfl
        (by norm_num) (by norm_num)
      simp only [readTagsAux, h32]
      simp [List.length_append]
  | cons t ts ih =>
    intro fuel pre rest acc hwf hf
    match fuel, hf with
    | fuel + 1, hf2 =>
      obtain ⟨hts, hts2⟩ : TagWF t ∧ TagsWF ts :=
        ⟨hwf t (by simp), fun u hu => hwf u (by simp [hu])⟩
      obtain ⟨hp1, hp2, hp3, hp4, hp5⟩ := hts
      have h32 := readInt32_consume (pre ++ writeTagsBytes (t :: ts) ++ rest) pre
        (int16Bytes t.id ++ (t.data ++ writeTagsBytes ts) ++ rest) t.size
        (by rw [writeTagsBytes_cons]; simp [List.append_assoc]) (by omega) (by omega)
      have h16 := readInt16_consume (pre ++ writeTagsBytes (t :: ts) ++ rest)
        (pre ++ int32Bytes t.size) (t.data ++ writeTagsBytes ts ++ rest) t.id
        (by rw [writeTagsBytes_cons]; simp [List.append_assoc]) (by omega) (by omega)
      have hB := readBytes_consume (pre ++ writeTagsBytes (t :: ts) ++ rest)
        (pre ++ int32Bytes t.size ++ int16Bytes t.id) t.data
        (writeTagsBytes ts ++ rest)
        (by rw [writeTagsBytes_cons]; simp [List.append_assoc])
      have hcast : usizeOfInt t.size = t.data.length := by
        rw [usizeOfInt_nonneg t.size (by omega)
          (by rw [show (2 : Int) ^ 63 = 9223372036854775808 from by norm_num]; omega), hp5]
      have hrec := ih fuel (pre ++ int32Bytes t.size ++ int16Bytes t.id ++ t.data) rest
        (acc ++ [{ id := t.id, size := t.size, data := t.data }]) hts2
        (by simp only [List.length_cons] at hf2; omega)
      rw [show (pre ++ int32Bytes t.size ++ int16Bytes t.id ++ t.data) ++
            writeTagsBytes ts ++ rest = pre ++ writeTagsBytes (t :: ts) ++ rest from by
          rw [writeTagsBytes_cons]; simp [List.append_assoc]] at hrec
      simp only [readTagsAux, h32, if_neg (show ¬ t.size = 0 from by omega), h16,
        hcast, hB, hrec]
      simp only [Except.ok.injEq, Prod.mk.injEq]
      constructor
      · simp
      · rw [writeTagsBytes_length]
        simp only [List.length_append, int32Bytes_length, int16Bytes_length]
        omega

theorem getVersion_cases (fv : List Nat) :
    getVersion fv = 1 ∨ getVersion fv = 2 ∨ getVersion fv = 3 ∨
    getVersion fv = 4 ∨ getVersion fv = -1 := by
  unfold getVersion
  split_ifs <;> simp

theorem dropWhile_length_le (p : Nat → Bool) :
    ∀ l : List Nat, (l.dropWhile p).length ≤ l.length := by
  intro l
  induction l with
  | nil => simp
  | cons a t ih =>
    rw [List.dropWhile_cons]
    split
    · simp only [List.length_cons]
      omega
    · simp

theorem trimZeros_length_le (l : List Nat) : (trimZeros l).length ≤ l.length := by
  unfold trimZeros
  rw [List.length_reverse]
  calc (l.reverse.dropWhile fun b => decide (b = 0)).length
      ≤ l.reverse.length := dropWhile_length_le _ _
    _ = l.length := List.length_reverse l

theorem readTagF_len (d : List Nat) (p size : Nat) (fv : List Nat) (q : Nat)
    (h : readTagF d p size = .ok (fv, q)) : fv.length ≤ size := by
  unfold readTagF at h
  split at h
  · simp at h
  · rename_i bs q1 heq
    obtain ⟨_, hlen, _, _⟩ := readBytes_ok d p size bs q1 heq
    simp only [Except.ok.injEq, Prod.mk.injEq] at h
    obtain ⟨h1, _⟩ := h
    subst h1
    calc (trimZeros bs).length ≤ bs.length := trimZeros_length_le bs
      _ = size := hlen

theorem readV3Tail_wf (d : List Nat) (hd : d.length < 2 ^ 63) (h : MifHeader)
    (p : Nat) (b : Bool) (g : MifHeader) (q : Nat)
    (hWF : HeaderWF h)
    (hres : readV3Tail d h p = .ok (b, g, q)) : HeaderWF g := by
  obtain ⟨w1, w2, w3, w4⟩ := hWF
  unfold readV3Tail at hres
  split at hres
  · simp only [Except.ok.injEq, Prod.mk.injEq] at hres
    obtain ⟨_, hh, _⟩ := hres
    exact hh ▸ ⟨w1, w2, w3, w4⟩
  · split at hres
    · simp at hres
    · split at hres
      · simp at hres
      · split at hres
        · simp at hres
        · split at hres
          · rename_i hv3
            split at hres
            · simp at hres
            · rename_i ts p4 hTags
              unfold readTags at hTags
              have hwfts : TagsWF ts := readTagsAux_wf d hd _ h.tags _ ts p4 w3 hTags
              simp only [Except.ok.injEq, Prod.mk.injEq] at hres
              obtain ⟨_, hh, _⟩ := hres
              subst hh
              refine ⟨by simpa using w1, by simpa using w2, by simpa using hwfts, ?_⟩
              intro _
              simp only
              rcases w2 with h1 | h1 | h1 | h1 <;> omega
          · simp only [Except.ok.injEq, Prod.mk.injEq] at hres
            obtain ⟨_, hh, _⟩ := hres
            subst hh
            exact ⟨by simpa using w1, by simpa using w2, by simpa using w3,
              fun hne => by simpa using w4 (by simpa using hne)⟩

theorem readV3Password_wf (d : List Nat) (hd : d.length < 2 ^ 63) (h : MifHeader)
    (p : Nat) (b : Bool) (g : MifHeader) (q : Nat)
    (hWF : HeaderWF h)
    (hres : readV3Password d h p = .ok (b, g, q)) : HeaderWF g := by
  obtain ⟨w1, w2, w3, w4⟩ := hWF
  unfold readV3Password at hres
  split at hres
  · split at hres
    · simp at hres
    · split at hres
      · simp only [Except.ok.injEq, Prod.mk.injEq] at hres
        obtain ⟨_, hh, _⟩ := hres
        exact hh ▸ ⟨w1, w2, w3, w4⟩
      · split at hres
        · split at hres
          · simp at hres
          · refine readV3Tail_wf d hd _ _ b g q ?_ hres
            exact ⟨by simpa using w1, by simpa using w2, by simpa using w3,
              fun hne => by simpa using w4 (by simpa using hne)⟩
        · exact readV3Tail_wf d hd h _ b g q ⟨w1, w2, w3, w4⟩ hres
  · exact readV3Tail_wf d hd h p b g q ⟨w1, w2, w3, w4⟩ hres

theorem readV3Params_wf (d : List Nat) (hd : d.length < 2 ^ 63) (h : MifHeader)
    (p : Nat) (b : Bool) (g : MifHeader) (q : Nat)
    (hWF : HeaderWF h)
    (hres : readV3Params d h p = .ok (b, g, q)) : HeaderWF g := by
  obtain ⟨w1, w2, w3, w4⟩ := hWF
  unfold readV3Params at hres
  split at hres
  · simp at hres
  · refine readV3Password_wf d hd _ _ b g q ?_ hres
    exact ⟨by simpa using w1, by simpa using w2, by simpa using w3,
      fun hne => by simpa using w4 (by simpa using hne)⟩

theorem readV3Pc_wf (d : List Nat) (hd : d.length < 2 ^ 63) (h : MifHeader)
    (p : Nat) (b : Bool) (g : MifHeader) (q : Nat)
    (hWF : HeaderWF h)
    (hres : readV3Pc d h p = .ok (b, g, q)) : HeaderWF g := by
  obtain ⟨w1, w2, w3, w4⟩ := hWF
  unfold readV3Pc at hres
  split at hres
  · refine readV3Params_wf d hd _ _ b g q ?_ hres
    exact ⟨by simpa using w1, by simpa using w2, by simpa using w3,
      fun hne => by simpa using w4 (by simpa using hne)⟩
  · split at hres
    · simp at hres
    · split at hres
      · split at hres
        · simp at hres
        · split at hres
          · simp at hres
          · split at hres
            · simp only [Except.ok.injEq, Prod.mk.injEq] at hres
              obtain ⟨_, hh, _⟩ := hres
              subst hh
              exact ⟨by simpa using w1, by simpa using w2, by simpa using w3,
                fun hne => by simpa using w4 (by simpa using hne)⟩
            · refine readV3Params_wf d hd _ _ b g q ?_ hres
              refine ⟨by simp [MIFFIDV30], ?_, by simpa using w3, fun hne => ?_⟩
              · simp only
                right; right; right
                decide
              · simp only
                right
                decide
      · refine readV3Params_wf d hd _ _ b g q ?_ hres
        exact ⟨by simpa using w1, by simpa using w2, by simpa using w3,
          fun hne => by simpa using w4 (by simpa using hne)⟩

theorem readV3AndOlder_wf (d : List Nat) (hd : d.length < 2 ^ 63) (h : MifHeader)
    (p : Nat) (b : Bool) (g : MifHeader) (q : Nat)
    (hWF : HeaderWF h)
    (hres : readV3AndOlder d h p = .ok (b, g, q)) : HeaderWF g := by
  obtain ⟨w1, w2, w3, w4⟩ := hWF
  unfold readV3AndOlder at hres
  split at hres
  · simp at hres
  · split at hres
    · simp at hres
    · split at hres
      · simp at hres
      · refine readV3Pc_wf d hd _ _ b g q ?_ hres
        exact ⟨by simpa using w1, by simpa using w2, by simpa using w3,
          fun hne => by simpa using w4 (by simpa using hne)⟩

theorem readV4_wf (d : List Nat) (hd : d.length < 2 ^ 63) (h : MifHeader)
    (p : Nat) (b : Bool) (g : MifHeader) (q : Nat)
    (hWF : HeaderWF h) (hv4 : h.version_id = 4)
    (hres : readV4 d h p = .ok (b, g, q)) : HeaderWF g := by
  obtain ⟨w1, w2, w3, _⟩ := hWF
  unfold readV4 at hres
  split at hres
  · simp at hres
  · split at hres
    · simp at hres
    · split at hres
      · simp at hres
      · split at hres
        · simp at hres
        · split at hres
          · simp at hres
          · split at hres
            · simp only [Except.ok.injEq, Prod.mk.injEq] at hres
              obtain ⟨_, hh, _⟩ := hres
              subst hh
              refine ⟨by simpa using w1, by simpa using w2, by simpa using w3, ?_⟩
              intro _
              simp only
              right
              exact hv4
            · split at hres
              · simp at hres
              · split at hres
                · simp at hres
                · rename_i ts p7 hTags
                  unfold readTags at hTags
                  have hwfts : TagsWF ts :=
                    readTagsAux_wf d hd _ h.tags _ ts p7 w3 hTags
                  simp only [Except.ok.injEq, Prod.mk.injEq] at hres
                  obtain ⟨_, hh, _⟩ := hres
                  subst hh
                  refine ⟨by simpa using w1, by simpa using w2,
                    by simpa using hwfts, ?_⟩
                  intro _
                  simp only
                  right
                  exact hv4

theorem MifHeader.read_wf (d : List Nat) (hd : d.length < 2 ^ 63) (p : Nat)
    (h : MifHeader) (q : Nat)
    (hres : MifHeader.read d p = .ok (h, q)) : HeaderWF h := by
  unfold MifHeader.read at hres
  split at hres
  · simp at hres
  · rename_i fv p1 hTag
    split at hres
    · simp at hres
    · rename_i hv1
      split at hres
      · simp at hres
      · rename_i vc p2 hvc
        split at hres
        · simp at hres
        · rename_i av p3 hav
          split at hres
          · simp at hres
          · rename_i fl p4 hfl
            split at hres
            · simp at hres
            · rename_i hvr
              have hfvlen := readTagF_len d p 8 fv p1 hTag
              have hvcases := getVersion_cases fv
              have hWF0 : HeaderWF { MifHeader.init fv with
                  variant_count := vc, active_variant := av, flags := fl } := by
                refine ⟨?_, ?_, ?_, ?_⟩
                · simpa [MifHeader.init] using hfvlen
                · simp only [MifHeader.init]
                  rcases hvcases with h1 | h1 | h1 | h1 | h1 <;> omega
                · intro t ht
                  simp [MifHeader.init] at ht
                · intro hne
                  simp [MifHeader.init] at hne
              split at hres
              · simp at hres
              · rename_i success g p5 hbranch
                split at hres
                · simp only [Except.ok.injEq, Prod.mk.injEq] at hres
                  obtain ⟨hh, _⟩ := hres
                  subst hh
                  split at hbranch
                  · exact readV3AndOlder_wf d hd _ p4 success g p5 hWF0 hbranch
                  · rename_i hgt3
                    refine readV4_wf d hd _ p4 success g p5 hWF0 ?_ hbranch
                    simp only [MifHeader.init]
                    omega
                · simp at hres

theorem writeBody_suffix (h : MifHeader)
    (hv : h.version_id = 2 ∨ h.version_id = 3 ∨ h.version_id = 4) :
    ∃ mid, MifHeader.writeBody h = mid ++ writeTagsBytes h.tags := by
  unfold MifHeader.writeBody
  rcases hv with hv | hv | hv
  · rw [if_pos (by omega), if_pos (by omega), if_pos (by omega), if_pos (by omega)]
    refine ⟨writeStringBytes h.design_name ++ writeStringBytes h.design_file_name ++
      writeStringBytes h.design_type ++ int16Bytes h.pc ++
      (h.parameters.map writeStringBytes).flatten ++
      (int16Bytes (h.password.length : Int) ++ h.password), ?_⟩
    simp only [List.append_assoc]
  · rw [if_pos (by omega), if_pos (by omega), if_pos (by omega), if_pos (by omega)]
    refine ⟨writeStringBytes h.design_name ++ writeStringBytes h.design_file_name ++
      writeStringBytes h.design_type ++ int16Bytes h.pc ++
      (h.parameters.map writeStringBytes).flatten ++
      (int16Bytes (h.password.length : Int) ++ h.password), ?_⟩
    simp only [List.append_assoc]
  · rw [if_neg (by omega)]
    refine ⟨writeStringBytes h.design_name ++ writeStringBytes h.design_file_name ++
      writeStringBytes h.design_type ++ List.replicate 256 0 ++ int16Bytes h.pc ++
      (h.parameters.map writeStringBytes).flatten, ?_⟩
    simp only [List.append_assoc]

theorem write_suffix (h : MifHeader) (hfv : h.file_version.length ≤ 8)
    (hv : h.version_id = 2 ∨ h.version_id = 3 ∨ h.version_id = 4) :
    ∃ pre, MifHeader.write h = .ok (pre ++ writeTagsBytes h.tags) := by
  obtain ⟨mid, hmid⟩ := writeBody_suffix h hv
  unfold MifHeader.write writeTagFixed
  rw [if_pos hfv, hmid]
  refine ⟨(h.file_version ++ List.replicate (8 - h.file_version.length) 0) ++
    int16Bytes h.variant_count ++ int16Bytes h.active_variant ++
    int16Bytes h.flags ++ mid, ?_⟩
  simp only [List.append_assoc]

set_option maxHeartbeats 1000000 in
/-- C3: any header parsed by `MifHeader::read` (from a file of
realistic size) with a nonempty extension-tag list — which forces a
byte sequence tagged version 2, 3 or 4, version 1 never reading tags —
is written by `MifHeader::write` with the byte serialization of exactly
that tag list as its suffix, and parsing that serialization back with
`read_tags` recovers the same tag list in the same order. -/
theorem c3_header_extension_tag_roundtrip (d : List Nat) (h : MifHeader) (q : Nat)
    (hlen : d.length < 2 ^ 63)
    (hread : MifHeader.read d 0 = .ok (h, q))
    (hne : h.tags ≠ []) :
    ∃ pre, MifHeader.write h = .ok (pre ++ writeTagsBytes h.tags) ∧
      ∀ rest, readTags (pre ++ writeTagsBytes h.tags ++ rest) [] pre.length =
        .ok (h.tags, pre.length + (writeTagsBytes h.tags).length) := by
  obtain ⟨w1, w2, w3, w4⟩ := MifHeader.read_wf d hlen 0 h q hread
  have hv : h.version_id = 2 ∨ h.version_id = 3 ∨ h.version_id = 4 := by
    rcases w4 hne with h4 | h4
    · exact Or.inr (Or.inl h4)
    · exact Or.inr (Or.inr h4)
  obtain ⟨pre, hpre⟩ := write_suffix h w1 hv
  refine ⟨pre, hpre, fun rest => ?_⟩
  have hge := writeTagsBytes_length_ge h.tags
  have hb := readTagsAux_roundtrip h.tags
    ((pre ++ writeTagsBytes h.tags ++ rest).length + 1) pre rest [] w3
    (by simp only [List.length_append]; omega)
  unfold readTags
  simpa using hb

set_option maxRecDepth 100000 in
set_option maxHeartbeats 1000000 in
/-- C3 witness: the round-trip theorem applied to the concrete
version-3 header bytes `c3Bytes`, whose single extension tag is
`(id 7, size 1, payload [9])`. -/
theorem c3_header_extension_tag_roundtrip_witness :
    ∃ pre, MifHeader.write c3Header = .ok (pre ++ writeTagsBytes c3Header.tags) ∧
      ∀ rest, readTags (pre ++ writeTagsBytes c3Header.tags ++ rest) [] pre.length =
        .ok (c3Header.tags, pre.length + (writeTagsBytes c3Header.tags).length) :=
  c3_header_extension_tag_roundtrip c3Bytes c3Header 45 (by decide) (by decide)
    (by decide)

theorem readInt16List_length (d : List Nat) :
    ∀ (n : Nat) (acc : List Int) (p : Nat) (xs : List Int) (q : Nat),
      readInt16List d n acc p = .ok (xs, q) → xs.length = acc.length + n := by
  intro n
  induction n with
  | zero =>
    intro acc p xs q hres
    simp only [readInt16List, Except.ok.injEq, Prod.mk.injEq] at hres
    obtain ⟨h1, _⟩ := hres
    simp [h1.symm]
  | succ n ih =>
    intro acc p xs q hres
    simp only [readInt16List] at hres
    split at hres
    · simp at hres
    · have := ih _ _ xs q hres
      simp only [List.length_append, List.length_cons, List.length_nil] at this
      omega

theorem ImageDataSection.read_shape (d : List Nat) (p : Nat)
    (s : ImageDataSection) (q : Nat)
    (hres : ImageDataSection.read d p = .ok (s, q)) :
    s.line_sizes.length = s.height.toNat ∧
    -2147483648 ≤ s.height ∧ s.height < 2147483648 := by
  unfold ImageDataSection.read at hres
  split at hres
  · simp at hres
  · split at hres
    · simp at hres
    · split at hres
      · simp at hres
      · split at hres
        · simp at hres
        · rename_i ht p3 hht
          split at hres
          · simp at hres
          · split at hres
            · simp at hres
            · rename_i sizes p5 hsizes
              split at hres
              · simp at hres
              · obtain ⟨hr1, hr2, _, _⟩ := readInt32_ok _ _ _ _ hht
                have hlen := readInt16List_length d ht.toNat [] _ sizes p5 hsizes
                simp only [Except.ok.injEq, Prod.mk.injEq] at hres
                obtain ⟨hh, _⟩ := hres
                subst hh
                simp only [List.length_nil, Nat.zero_add] at hlen
                exact ⟨hlen, hr1, hr2⟩

theorem vecGet_oob {α : Type} (l : List α) (i : Nat) (h : l.length ≤ i) :
    vecGet l i = .error .panicked := by
  unfold vecGet
  rw [List.get?_eq_none.mpr h]

set_option maxRecDepth 10000 in
/-- C2 counterexample: a parsed one-line (`height = 1`) image-data
section on which `read_line(1)` — an index equal to the height — does
not return a `CorruptData`/`IndexOutOfRange` error value but panics on
the out-of-bounds `line_sizes` index (`Err.panicked`, which is a crash
and not an error return), while `read_line(0)` works normally. -/
theorem c2_read_line_out_of_range_counterexample :
    ImageDataSection.read c2Bytes 0 = .ok (c2Section, 24) ∧
    ImageDataSection.read_line c2Section c2Bytes 1 = .error .panicked ∧
    ImageDataSection.read_line c2Section c2Bytes 0 = .ok [7] := by
  refine ⟨by decide, by decide, by decide⟩

/-- C2 amended: for every section parsed by `ImageDataSection::read`
and every in-`i32`-range line index `n ≥ height`, `read_line(n)` panics
with an index out of bounds (on any file contents) instead of
returning an error value. -/
theorem c2_read_line_out_of_range_panics (d : List Nat) (p : Nat)
    (s : ImageDataSection) (q : Nat) (line : Int)
    (hread : ImageDataSection.read d p = .ok (s, q))
    (hline : s.height ≤ line) (hlt : line < 2147483648) :
    ∀ d2 : List Nat, ImageDataSection.read_line s d2 line = .error .panicked := by
  obtain ⟨hlen, hh1, hh2⟩ := ImageDataSection.read_shape d p s q hread
  intro d2
  unfold ImageDataSection.read_line
  by_cases h0 : line = 0
  · subst h0
    have hnil : s.line_sizes = [] := by
      have h1 : s.line_sizes.length = 0 := by omega
      exact List.length_eq_zero.mp h1
    rw [if_pos rfl, hnil, vecGet_oob ([] : List Int) _ (by simp)]
  · rw [if_neg h0]
    rcases lt_trichotomy line 0 with hneg | hz | hpos
    · have hbig := usizeOfInt_neg line hneg (by omega)
      rw [show vecSliceTo s.line_sizes (usizeOfInt line) = .error .panicked from by
        unfold vecSliceTo
        rw [if_neg (by
          rw [show (2 : Nat) ^ 63 = 9223372036854775808 from by norm_num] at hbig
          omega)]]
    · exact absurd hz h0
    · have hcast : usizeOfInt line = line.toNat :=
        usizeOfInt_nonneg line (by omega)
          (by rw [show (2 : Int) ^ 63 = 9223372036854775808 from by norm_num]; omega)
      rw [hcast]
      have hk : s.line_sizes.length ≤ line.toNat := by omega
      rcases lt_or_eq_of_le hk with hlt2 | heq2
      · rw [show vecSliceTo s.line_sizes line.toNat = .error .panicked from by
          unfold vecSliceTo
          rw [if_neg (by omega)]]
      · rw [show vecSliceTo s.line_sizes line.toNat =
            .ok (s.line_sizes.take line.toNat) from by
          unfold vecSliceTo
          rw [if_pos (by omega)]]
        rw [vecGet_oob s.line_sizes line.toNat hk]

/-- C2 witness: the amended out-of-range theorem applied to the
concrete parsed section `c2Section` at line 5. -/
theorem c2_read_line_out_of_range_panics_witness :
    ImageDataSection.read_line c2Section c2Bytes 5 = .error .panicked :=
  c2_read_line_out_of_range_panics c2Bytes 0 c2Section 24 5 (by decide) (by decide)
    (by decide) c2Bytes

theorem imgSysLoop_unknown_id (d : List Nat) (fuel : Nat) (tags : ImgSysTags)
    (p : Nat) (tagId : Int) (p1 : Nat)
    (h16 : readInt16 d p = .ok (tagId, p1))
    (hid : tagId < 0 ∨ 4 < tagId) :
    imgSysLoop d (fuel + 1) tags p = .ok (emptyImgSysTags, p1) := by
  simp only [imgSysLoop, h16]
  rw [if_neg (by omega), if_neg (by omega), if_neg (by omega), if_neg (by omega),
    if_neg (by omega)]

/-- C5 counterexample: tag id 0 is not in {1,2,3,4}, so per the claim
it should reset the table and return success — but `read_img_sys_tags`
on a table whose first id is 0 fails with the hard error
`"Invalid tag id"`. -/
theorem c5_zero_tag_id_is_an_error :
    readImgSysTags [4, 0, 0, 0, 0, 0] 0 = .error (.e "Invalid tag id") := by
  decide

/-- C5 amended: an unrecognized *nonzero* tag id — negative or above
4 — makes the parser discard everything parsed so far, return the
all-unset table and stop, reporting success (at any point of the loop,
and from the top-level entry after a nonzero first size); tag id 0
instead fails with a hard error (`c5_zero_tag_id_is_an_error`). -/
theorem c5_unknown_tag_id_resets_table :
    (∀ (d : List Nat) (fuel : Nat) (tags : ImgSysTags) (p : Nat) (tagId : Int)
      (p1 : Nat), readInt16 d p = .ok (tagId, p1) → tagId < 0 ∨ 4 < tagId →
      imgSysLoop d (fuel + 1) tags p = .ok (emptyImgSysTags, p1)) ∧
    (∀ (d : List Nat) (p : Nat) (sz : Int) (p1 : Nat) (tagId : Int) (p2 : Nat),
      readInt32 d p = .ok (sz, p1) → sz ≠ 0 →
      readInt16 d p1 = .ok (tagId, p2) → tagId < 0 ∨ 4 < tagId →
      readImgSysTags d p = .ok (emptyImgSysTags, p2)) := by
  constructor
  · exact imgSysLoop_unknown_id
  · intro d p sz p1 tagId p2 h32 hsz h16 hid
    simp only [readImgSysTags, h32, if_neg hsz]
    exact imgSysLoop_unknown_id d d.length emptyImgSysTags p1 tagId p2 h16 hid

/-- C5 witness: the reset behavior at a concrete unknown id (9). -/
theorem c5_unknown_tag_id_resets_table_witness :
    imgSysLoop [9, 0] 1 { rendering_method := some 3, channel_offsets := none, halftone := none, repeatT := none } 0 = .ok (emptyImgSysTags, 2) ∧
    readImgSysTags [4, 0, 0, 0, 9, 0] 0 = .ok (emptyImgSysTags, 6) :=
  ⟨c5_unknown_tag_id_resets_table.1 [9, 0] 0
      { rendering_method := some 3, channel_offsets := none, halftone := none, repeatT := none } 0 9 2 (by decide) (by decide),
   c5_unknown_tag_id_resets_table.2 [4, 0, 0, 0, 9, 0] 0 4 4 9 6 (by decide)
      (by decide) (by decide) (by decide)⟩

set_option maxRecDepth 10000 in
/-- C4 counterexample: at canvas pixel black, channel value 0, channel
color white, opacity 0, the code's blend (dissolve from the red RGB
byte `pixel[0]`) yields black, while the blend the claim describes
(dissolve from the red-derived CMY component `255 - r`) yields white —
so the dissolve term does not equal blend times the red-derived CMY
component over 255. -/
theorem c4_dissolve_not_red_cmy_counterexample :
    nativeBlendPixel { r := 0, g := 0, b := 0 } 0 { r := 255, g := 255, b := 255 } 0 =
      { r := 0, g := 0, b := 0 } ∧
    nativeBlendPixelSpecC4 { r := 0, g := 0, b := 0 } 0 { r := 255, g := 255, b := 255 } 0 =
      { r := 255, g := 255, b := 255 } := by
  constructor
  · norm_num [nativeBlendPixel, f32u8, Int.toNat_ofNat]
  · norm_num [nativeBlendPixelSpecC4, f32u8, Int.toNat_ofNat]
    decide

/-- C4 amended: in native-blend the single dissolve value equals blend
times the canvas pixel's red *RGB* byte (`pixel[0]`, not the
red-derived CMY component) divided by 255, and this same value feeds
the identical per-component formula for all three CMY components. -/
theorem c4_single_dissolve_from_red_rgb (pix : Rgb) (srcVal : Nat) (color : Rgb)
    (opac : ℚ) :
    nativeBlendPixel pix srcVal color opac =
      { r := f32u8 (255 - nativeComponentFormula (255 - (pix.r : ℚ))
          (255 - (color.r : ℚ)) (255 - (srcVal : ℚ))
          (opac * (255 - (srcVal : ℚ)) / 128)
          ((255 - (srcVal : ℚ)) * (pix.r : ℚ) / 255))
        g := f32u8 (255 - nativeComponentFormula (255 - (pix.g : ℚ))
          (255 - (color.g : ℚ)) (255 - (srcVal : ℚ))
          (opac * (255 - (srcVal : ℚ)) / 128)
          ((255 - (srcVal : ℚ)) * (pix.r : ℚ) / 255))
        b := f32u8 (255 - nativeComponentFormula (255 - (pix.b : ℚ))
          (255 - (color.b : ℚ)) (255 - (srcVal : ℚ))
          (opac * (255 - (srcVal : ℚ)) / 128)
          ((255 - (srcVal : ℚ)) * (pix.r : ℚ) / 255)) } := rfl

theorem nativeBlendPixel_white_255 (c : Rgb) (o : ℚ) :
    nativeBlendPixel whitePix 255 c o = whitePix := by
  simp only [nativeBlendPixel, whitePix, f32u8]
  norm_num [Int.toNat_ofNat]
  decide

theorem set_replicate_self {α : Type} (a : α) :
    ∀ (n i : Nat), (List.replicate n a).set i a = List.replicate n a := by
  intro n
  induction n with
  | zero => intro i; rfl
  | succ n ih =>
    intro i
    cases i with
    | zero => simp [List.replicate_succ, List.set]
    | succ i => simp [List.replicate_succ, List.set, ih]

theorem renderStepNative_white (source : List Nat)
    (hsource : ∀ x ∈ source, x = 255) (c : Rgb) (o : ℚ) (n i : Nat) :
    renderStepNative source c o (List.replicate n whitePix) i =
      List.replicate n whitePix := by
  unfold renderStepNative
  cases hs : source.get? i with
  | none => rfl
  | some v =>
    have hv : v = 255 := hsource v (List.get?_mem hs)
    cases hp : (List.replicate n whitePix).get? i with
    | none => rfl
    | some pcur =>
      have hpw : pcur = whitePix := List.eq_of_mem_replicate (List.get?_mem hp)
      subst hv hpw
      show (List.replicate n whitePix).set i (nativeBlendPixel whitePix 255 c o) =
        List.replicate n whitePix
      rw [nativeBlendPixel_white_255, set_replicate_self]

theorem renderNative_white (w h : Nat) (source : List Nat)
    (hsource : ∀ x ∈ source, x = 255) (c : Rgb) (o : ℚ) :
    renderNative { width := w, height := h, pixels := List.replicate (w * h) whitePix }
      source c o =
      { width := w, height := h, pixels := List.replicate (w * h) whitePix } := by
  unfold renderNative
  have hfold : ∀ (L : List Nat),
      L.foldl (renderStepNative source c o) (List.replicate (w * h) whitePix) =
        List.replicate (w * h) whitePix := by
    intro L
    induction L with
    | nil => rfl
    | cons j L ih =>
      rw [List.foldl_cons, renderStepNative_white source hsource c o (w * h) j, ih]
  simp [hfold]

set_option maxRecDepth 10000 in
/-- C7 counterexample: composing the claimed synthetic input — one
visible 2x2 channel with intensity value 0 at every pixel (black
channel color, opacity 1) over a fully-white fabric at scale 1 —
yields the channel color (black) at every pixel, not the fabric color
(white): value 0 means `blend = 255`, full effect, not transparency. -/
theorem c7_value_zero_gives_channel_color :
    createInterleavedRgb c7Layer whiteFabricVariant 1 =
      .ok { width := 2, height := 2,
            pixels := List.replicate 4 { r := 0, g := 0, b := 0 } } ∧
    whiteFabricVariant.fabric_color.to_rgb = whitePix := by
  refine ⟨?_, by decide⟩
  have hbp : nativeBlendPixel { r := 255, g := 255, b := 255 } 0
      { r := 0, g := 0, b := 0 } 1 = { r := 0, g := 0, b := 0 } := by
    norm_num [nativeBlendPixel, f32u8]
  have h1 : whiteFabricVariant.fabric_color.to_rgb = whitePix := by decide
  have h2 : blackChannelColor.to_rgb = { r := 0, g := 0, b := 0 } := by decide
  have hrange : List.range 4 = [0, 1, 2, 3] := by decide
  simp only [createInterleavedRgb, c7Layer, h1]
  rw [if_neg (by decide)]
  norm_num [renderNative, renderStepNative, hrange, List.set, whitePix]
  rw [h2, hbp]
  simp [List.replicate_succ]

/-- C7 amended: with channel intensity value 255 at every pixel
(`blend = 0`), composing a single 2x2 channel — any name, visibility,
opacity and channel color — over a fully-white fabric at scale 1
yields the fabric color at every pixel: the blend is a no-op when
`channel_value == 255`. -/
theorem c7_value_255_blend_is_noop (name : List Nat) (vis : Bool) (opac : ℚ)
    (col : MifColor) :
    createInterleavedRgb
      { channel_count := 1,
        channels := [{ width := 2, height := 2, data := List.replicate 4 255, name := name, visibility := vis, opacity := opac, color := col }] }
      whiteFabricVariant 1 =
      .ok { width := 2, height := 2, pixels := List.replicate 4 whitePix } := by
  have hwf : whiteFabricVariant.fabric_color.to_rgb = whitePix := by decide
  simp only [createInterleavedRgb]
  rw [if_neg (by decide)]
  simp only [List.foldl_cons, List.foldl_nil, hwf]
  by_cases hskip : vis = false ∧ (name = [67] ∨ name = [77] ∨ name = [89])
  · rw [if_pos hskip]
  · rw [if_neg hskip]
    show Except.ok (renderNative
        { width := 2, height := 2, pixels := List.replicate 4 whitePix }
        (List.replicate 4 255) col.to_rgb opac) =
      .ok { width := 2, height := 2, pixels := List.replicate 4 whitePix }
    rw [renderNative_white 2 2 (List.replicate 4 255)
      (fun x hx => List.eq_of_mem_replicate hx) col.to_rgb opac]

/-- C8: `to_rgb` (the spec's `display_rgb()`) on `color_type` 1
returns the high byte `value >>> 8` of each 16-bit channel — in
particular all-`0xFF00` gives pure white — and on any `color_type`
other than 0 and 1 returns black. -/
theorem c8_display_rgb_high_bytes :
    (∀ c : MifColor, c.color_type = 1 →
      c.to_rgb = { r := c.red >>> 8, g := c.green >>> 8, b := c.blue >>> 8 }) ∧
    whiteFabricColor.to_rgb = { r := 255, g := 255, b := 255 } ∧
    (∀ c : MifColor, c.color_type ≠ 0 → c.color_type ≠ 1 →
      c.to_rgb = { r := 0, g := 0, b := 0 }) := by
  refine ⟨?_, by decide, ?_⟩
  · intro c h1
    unfold MifColor.to_rgb
    rw [if_neg (by omega), if_pos h1]
  · intro c h0 h1
    unfold MifColor.to_rgb
    rw [if_neg h0, if_neg h1]

/-- C8 witness: the two hypothesis-bearing clauses at concrete colors:
the black `color_type` 1 color, and a `color_type` 7 color. -/
theorem c8_display_rgb_high_bytes_witness :
    blackChannelColor.to_rgb =
      { r := blackChannelColor.red >>> 8, g := blackChannelColor.green >>> 8, b := blackChannelColor.blue >>> 8 } ∧
    MifColor.to_rgb { tag := [], red := 9, green := 9, blue := 9, color_type := 7, l := 0, a := 0, b := 0, name := [], description := [], extra_datasize := 0 } =
      { r := 0, g := 0, b := 0 } :=
  ⟨c8_display_rgb_high_bytes.1 blackChannelColor (by decide),
   c8_display_rgb_high_bytes.2.2
     { tag := [], red := 9, green := 9, blue := 9, color_type := 7, l := 0, a := 0, b := 0, name := [], description := [], extra_datasize := 0 }
     (by decide) (by decide)⟩

/-- C9: `compose` (`create_interleaved_rgb`) is deterministic — two
runs on equal inputs produce equal (byte-identical) results. The
embedding is a pure function of `(layer, variant, scale)`, mirroring
that the Rust compose path performs no I/O, reads no clock or random
source, and iterates channels and pixels in a fixed order. -/
theorem c9_compose_deterministic (l1 l2 : MifLayer) (v1 v2 : MifVariant)
    (s1 s2 : Nat) (hl : l1 = l2) (hv : v1 = v2) (hs : s1 = s2) :
    createInterleavedRgb l1 v1 s1 = createInterleavedRgb l2 v2 s2 := by
  subst hl
  subst hv
  subst hs
  rfl

/-- C9 witness: determinism at the concrete synthetic layer. -/
theorem c9_compose_deterministic_witness :
    createInterleavedRgb c7Layer whiteFabricVariant 1 =
      createInterleavedRgb c7Layer whiteFabricVariant 1 :=
  c9_compose_deterministic c7Layer c7Layer whiteFabricVariant whiteFabricVariant
    1 1 rfl rfl rfl

theorem get?_set_ne {α : Type} (l : List α) (i j : Nat) (a : α) (h : i ≠ j) :
    (l.set i a).get? j = l.get? j := by
  induction l generalizing i j with
  | nil => simp [List.set]
  | cons x t ih =>
    cases i with
    | zero =>
      cases j with
      | zero => exact absurd rfl h
      | succ j => simp [List.set]
    | succ i =>
      cases j with
      | zero => simp [List.set]
      | succ j =>
        show (x :: t.set i a).get? (j + 1) = (x :: t).get? (j + 1)
        rw [List.get?_cons_succ, List.get?_cons_succ]
        exact ih i j (by omega)

theorem renderStepNative_frame (source : List Nat) (c : Rgb) (o : ℚ) (i : Nat)
    (hi : source.length ≤ i) (px : List Rgb) (j : Nat) :
    (renderStepNative source c o px j).get? i = px.get? i := by
  unfold renderStepNative
  cases hs : source.get? j with
  | none => rfl
  | some v =>
    have hj : j < source.length := by
      by_contra hc
      rw [List.get?_eq_none.mpr (by omega)] at hs
      cases hs
    cases hp : px.get? j with
    | none => rfl
    | some pcur =>
      show (px.set j (nativeBlendPixel pcur v c o)).get? i = px.get? i
      exact get?_set_ne px j i _ (by omega)

theorem renderStepAdd_frame (source : List Nat) (c : Rgb) (o : ℚ) (i : Nat)
    (hi : source.length ≤ i) (px : List Rgb) (j : Nat) :
    (renderStepAdd source c o px j).get? i = px.get? i := by
  unfold renderStepAdd
  cases hs : source.get? j with
  | none => rfl
  | some v =>
    have hj : j < source.length := by
      by_contra hc
      rw [List.get?_eq_none.mpr (by omega)] at hs
      cases hs
    cases hp : px.get? j with
    | none => rfl
    | some pcur =>
      show (px.set j (addBlendPixel pcur v c o)).get? i = px.get? i
      exact get?_set_ne px j i _ (by omega)

/-- C10: in both blend passes, a canvas pixel whose row-major linear
index reaches past the end of the channel data buffer is left
unchanged (the `continue` guard `idx >= source.len()`); both functions
are total, so no error is raised and no out-of-bounds read occurs. -/
theorem c10_short_channel_data_is_ignored (dest : Canvas) (source : List Nat)
    (color : Rgb) (opac : ℚ) (i : Nat) (hi : source.length ≤ i) :
    (renderNative dest source color opac).pixels.get? i = dest.pixels.get? i ∧
    (renderOnlyAdd dest source color opac).pixels.get? i = dest.pixels.get? i := by
  constructor
  · have hfold : ∀ (L : List Nat) (px : List Rgb),
        (L.foldl (renderStepNative source color opac) px).get? i = px.get? i := by
      intro L
      induction L with
      | nil => intro px; rfl
      | cons j L ih =>
        intro px
        rw [List.foldl_cons, ih, renderStepNative_frame source color opac i hi px j]
    exact hfold _ _
  · have hfold : ∀ (L : List Nat) (px : List Rgb),
        (L.foldl (renderStepAdd source color opac) px).get? i = px.get? i := by
      intro L
      induction L with
      | nil => intro px; rfl
      | cons j L ih =>
        intro px
        rw [List.foldl_cons, ih, renderStepAdd_frame source color opac i hi px j]
    exact hfold _ _

/-- C10 witness: a 1x1 canvas with an empty channel data buffer keeps
its pixel under both blends. -/
theorem c10_short_channel_data_is_ignored_witness :
    (renderNative { width := 1, height := 1, pixels := [whitePix] } []
      { r := 0, g := 0, b := 0 } 1).pixels.get? 0 =
      (Canvas.mk 1 1 [whitePix]).pixels.get? 0 ∧
    (renderOnlyAdd { width := 1, height := 1, pixels := [whitePix] } []
      { r := 0, g := 0, b := 0 } 1).pixels.get? 0 =
      (Canvas.mk 1 1 [whitePix]).pixels.get? 0 :=
  c10_short_channel_data_is_ignored { width := 1, height := 1, pixels := [whitePix] }
    [] { r := 0, g := 0, b := 0 } 1 0 (by decide)
